import Mathlib

/-!
Verification of the VPC import tool (`src/imp.py`).

The development shallowly embeds the program's data model and operations:

* `VpcRecord` / dictionary helpers model the per-VPC configuration records and
  Python's insertion-ordered `dict`.
* `mergeVpcDetails` models the merge loop of `create_or_update_tfvars`
  (lines 137-145 of `imp.py`).
* `renderTfvars` (with its helpers) models the serialization part of
  `create_or_update_tfvars` (lines 147-176), character for character.
* `hcl2_loads` models the external `hcl2.loads` decoder, restricted to the
  two-block schema of the generated `terraform.tfvars` file.
* `read_existing_tfvars` and `create_or_update_tfvars` model the functions of
  the same names.
* `fetch_vpc_details` and `mainRun` model the discovery step and the `main`
  pipeline as trace-producing functions over an explicit external world
  (provider response, prior file content, subprocess exit codes).
-/

/-- A discovered VPC configuration record: the data stored per id in
`vpc_details` / `imported_vpc_configs` (a CIDR string, the two DNS boolean
feature flags, and an insertion-ordered tag map). -/
structure VpcRecord where
  cidr_block : String
  enable_dns_support : Bool
  enable_dns_hostnames : Bool
  tags : List (String × String)
deriving DecidableEq, Repr

/-- First-match lookup in an association list (keys are unique in all the
dictionaries this development builds, mirroring Python `dict`). -/
def dictGet {α : Type} (m : List (String × α)) (k : String) : Option α :=
  match m with
  | [] => none
  | (k', v) :: r => if k' = k then some v else dictGet r k

/-- Python `dict` assignment `m[k] = v`: update the value in place if the key
is present (keeping its position), otherwise append the new binding at the
end (insertion order). -/
def dictSet {α : Type} (m : List (String × α)) (k : String) (v : α) : List (String × α) :=
  match m with
  | [] => [(k, v)]
  | (k', v') :: r => if k' = k then (k, v) :: r else (k', v') :: dictSet r k v

/-- Build a Python `dict` from a list of key/value pairs by repeated
assignment (later bindings win, first occurrence keeps its position). -/
def dictOfEntries {α : Type} (l : List (String × α)) : List (String × α) :=
  l.foldl (fun m p => dictSet m p.1 p.2) []

/-- The merge loop of `create_or_update_tfvars` (imp.py lines 137-145): for
every `(vpc_id, record)` of the discovery result, overwrite or insert
`existing_configs[vpc_id]` with the whole record, and append `vpc_id` to
`existing_vpc_ids` when it is not already present. -/
def mergeVpcDetails (existing_configs : List (String × VpcRecord))
    (existing_vpc_ids : List String) (vpc_details : List (String × VpcRecord)) :
    List (String × VpcRecord) × List String :=
  vpc_details.foldl
    (fun acc p =>
      (dictSet acc.1 p.1 p.2, if p.1 ∈ acc.2 then acc.2 else acc.2 ++ [p.1]))
    (existing_configs, existing_vpc_ids)

/-- Python `str(b).lower()` on a boolean. -/
def pyBoolStr (b : Bool) : String := if b then "true" else "false"

/-- Python `sep.join(items)`. -/
def joinSep (sep : String) : List String → String
  | [] => ""
  | [s] => s
  | s :: rest => s ++ sep ++ joinSep sep rest

/-- The tag-formatting loop of `create_or_update_tfvars` (imp.py lines
151-154): one line per tag, joined by newlines. -/
def formatTags (tags : List (String × String)) : String :=
  joinSep "\n" (tags.map fun kv => "      " ++ kv.1 ++ " = \"" ++ kv.2 ++ "\"")

/-- The per-VPC block of `create_or_update_tfvars` (imp.py lines 156-163),
reproducing the f-string character for character (braces written `\x7b` and
`\x7d`). -/
def renderVpcConfig (vid : String) (c : VpcRecord) : String :=
  "  \"" ++ vid ++ "\" = \x7b\n    cidr_block           = \"" ++ c.cidr_block ++
    "\"\n    enable_dns_support   = " ++ pyBoolStr c.enable_dns_support ++
    "\n    enable_dns_hostnames = " ++ pyBoolStr c.enable_dns_hostnames ++
    "\n    tags = \x7b\n" ++ formatTags c.tags ++ "\n    \x7d\n  \x7d"

/-- `json.dumps` escaping for the characters that can occur in the ids this
tool handles: backslash and double quote (control characters are outside the
modelled alphabet). -/
def jsonEscChar (c : Char) : List Char :=
  if c = '\\' then ['\\', '\\'] else if c = '"' then ['\\', '"'] else [c]

/-- `json.dumps` of a single string. -/
def jsonStr (s : String) : String := ⟨'"' :: ((s.data.map jsonEscChar).flatten ++ ['"'])⟩

/-- `json.dumps` of a list of strings (comma-space separated, as CPython
prints it). -/
def jsonDumpsStrList (xs : List String) : String :=
  "[" ++ joinSep ", " (xs.map jsonStr) ++ "]"

/-- The serialization part of `create_or_update_tfvars` (imp.py lines
147-176): the full `terraform.tfvars` text.  Note that the per-id blocks
iterate `existing_configs` (the dictionary, in insertion order), exactly as
the source's `for vid, config in existing_configs.items()` does. -/
def renderTfvars (region : String) (existing_configs : List (String × VpcRecord))
    (existing_vpc_ids : List String) : String :=
  "aws_region = \"" ++ region ++ "\"\n\nexisting_vpc_ids = " ++
    jsonDumpsStrList existing_vpc_ids ++ "\n\nimported_vpc_configs = \x7b\n" ++
    joinSep "\n" (existing_configs.map fun p => renderVpcConfig p.1 p.2) ++ "\n\x7d"

/-! ### The `hcl2.loads` model

The decoder for the variable file is an external collaborator (`hcl2`), not
part of the repository.  Modelled from the spec: an opaque decode for the
two-block schema (`aws_region` scalar, `existing_vpc_ids` string list,
`imported_vpc_configs` keyed block map), lenient in whitespace, strings
without escape sequences, failing (`none`) on anything outside the schema. -/

/-- Whitespace characters skipped by the decoder. -/
def isWsChar (c : Char) : Bool := c = ' ' || c = '\n' || c = '\t' || c = '\r'

/-- Skip leading whitespace. -/
def skipWs : List Char → List Char
  | [] => []
  | c :: r => if isWsChar c then skipWs r else c :: r

/-- Characters allowed in an identifier (HCL keys). -/
def isIdentChar (c : Char) : Bool := c.isAlphanum || c = '_' || c = '-'

/-- Take the longest identifier at the front of the input. -/
def takeIdent : List Char → List Char × List Char
  | [] => ([], [])
  | c :: r =>
    if isIdentChar c then
      let p := takeIdent r
      (c :: p.1, p.2)
    else ([], c :: r)

/-- Read the characters of a string literal up to (and consuming) the closing
quote. -/
def takeStrBody : List Char → Option (List Char × List Char)
  | [] => none
  | c :: r =>
    if c = '"' then some ([], r)
    else
      match takeStrBody r with
      | some (s, rest) => some (c :: s, rest)
      | none => none

/-- Parse a quoted string literal. -/
def parseStringLit (cs : List Char) : Option (String × List Char) :=
  match cs with
  | c :: r => if c = '"' then (takeStrBody r).map fun p => (⟨p.1⟩, p.2) else none
  | [] => none

/-- Expect a specific character at the front of the input. -/
def expectChar (c : Char) (cs : List Char) : Option (List Char) :=
  match cs with
  | c' :: r => if c' = c then some r else none
  | [] => none

/-- Expect `=` after optional whitespace. -/
def expectEq (cs : List Char) : Option (List Char) :=
  expectChar '=' (skipWs cs)

/-- Expect the identifier `name` followed by `=` (each after optional
whitespace). -/
def expectKey (name : String) (cs : List Char) : Option (List Char) :=
  let p := takeIdent (skipWs cs)
  if p.1 = name.data then expectEq p.2 else none

/-- Parse a boolean literal. -/
def parseBool (cs : List Char) : Option (Bool × List Char) :=
  match cs with
  | 't' :: 'r' :: 'u' :: 'e' :: r => some (true, r)
  | 'f' :: 'a' :: 'l' :: 's' :: 'e' :: r => some (false, r)
  | _ => none

/-- Parse the comma-separated items of a non-empty string list, up to (and
consuming) the closing bracket.  The fuel argument only bounds the number of
loop iterations; every iteration consumes input, so the `length + 1` fuel
supplied by `parseStrList` never runs out. -/
def parseStrListItemsF : Nat → List Char → Option (List String × List Char)
  | 0, _ => none
  | fuel + 1, cs =>
    match parseStringLit cs with
    | none => none
    | some (s, r1) =>
      match skipWs r1 with
      | [] => none
      | c :: r2 =>
        if c = ',' then
          match parseStrListItemsF fuel (skipWs r2) with
          | some (ss, r4) => some (s :: ss, r4)
          | none => none
        else if c = ']' then some ([s], r2)
        else none

/-- Parse a bracketed list of string literals. -/
def parseStrList (cs : List Char) : Option (List String × List Char) :=
  match cs with
  | c :: r =>
    if c = '[' then
      match skipWs r with
      | [] => none
      | c2 :: r2 =>
        if c2 = ']' then some ([], r2)
        else parseStrListItemsF ((c2 :: r2).length + 1) (c2 :: r2)
    else none
  | [] => none

/-- Parse the `key = "value"` entries of a tags block, up to (and consuming)
the closing brace (fuel-bounded loop; every iteration consumes input). -/
def parseTagEntriesF : Nat → List Char → Option (List (String × String) × List Char)
  | 0, _ => none
  | fuel + 1, cs =>
    match skipWs cs with
    | [] => none
    | c :: r =>
      if c = '\x7d' then some ([], r)
      else
        let p := takeIdent (c :: r)
        if p.1 = [] then none
        else
          match expectEq p.2 with
          | some r2 =>
            match parseStringLit (skipWs r2) with
            | some (v, r3) =>
              match parseTagEntriesF fuel r3 with
              | some (tags, r4) => some ((⟨p.1⟩, v) :: tags, r4)
              | none => none
            | none => none
          | none => none

/-- Parse a tags block's entries starting with enough fuel for the input. -/
def parseTagEntries (cs : List Char) : Option (List (String × String) × List Char) :=
  parseTagEntriesF (cs.length + 1) cs

/-- Parse one per-VPC configuration block (brace-delimited, fields in the
emitted schema order). -/
def parseVpcRecord (cs : List Char) : Option (VpcRecord × List Char) :=
  (expectChar '\x7b' (skipWs cs)).bind fun r =>
  (expectKey "cidr_block" r).bind fun r1 =>
  (parseStringLit (skipWs r1)).bind fun p2 =>
  (expectKey "enable_dns_support" p2.2).bind fun r3 =>
  (parseBool (skipWs r3)).bind fun p4 =>
  (expectKey "enable_dns_hostnames" p4.2).bind fun r5 =>
  (parseBool (skipWs r5)).bind fun p6 =>
  (expectKey "tags" p6.2).bind fun r7 =>
  (expectChar '\x7b' (skipWs r7)).bind fun r8 =>
  (parseTagEntries r8).bind fun p9 =>
  (expectChar '\x7d' (skipWs p9.2)).map fun r10 =>
  (⟨p2.1, p4.1, p6.1, dictOfEntries p9.1⟩, r10)

/-- Parse one `"id" = \x7b ... \x7d` entry of the configs block. -/
def parseConfigEntry (cs : List Char) : Option ((String × VpcRecord) × List Char) :=
  (parseStringLit cs).bind fun p1 =>
  (expectEq p1.2).bind fun r2 =>
  (parseVpcRecord r2).map fun p3 =>
  ((p1.1, p3.1), p3.2)

/-- Parse the entries of the configs block, up to (and consuming) the closing
brace (fuel-bounded loop; every iteration consumes input). -/
def parseConfigEntriesF : Nat → List Char → Option (List (String × VpcRecord) × List Char)
  | 0, _ => none
  | fuel + 1, cs =>
    match skipWs cs with
    | [] => none
    | c :: r =>
      if c = '\x7d' then some ([], r)
      else
        match parseConfigEntry (c :: r) with
        | some (e, r3) =>
          match parseConfigEntriesF fuel r3 with
          | some (es, r4) => some (e :: es, r4)
          | none => none
        | none => none

/-- Parse a configs block's entries starting with enough fuel for the input. -/
def parseConfigEntries (cs : List Char) : Option (List (String × VpcRecord) × List Char) :=
  parseConfigEntriesF (cs.length + 1) cs

/-- The decoded document: the three optional top-level fields the program
reads (`parsed.get` with a default models the `Option`). -/
structure ParsedDoc where
  aws_region : Option String
  existing_vpc_ids : Option (List String)
  imported_vpc_configs : Option (List (String × VpcRecord))
deriving DecidableEq, Repr

/-- Parse one top-level assignment, dispatching on the key. -/
def parseTopAssign (doc : ParsedDoc) (cs : List Char) : Option (ParsedDoc × List Char) :=
  let p := takeIdent cs
  if p.1 = [] then none
  else
    (expectEq p.2).bind fun r2 =>
    let r3 := skipWs r2
    if p.1 = ("aws_region" : String).data then
      (parseStringLit r3).map fun q => ({ doc with aws_region := some q.1 }, q.2)
    else if p.1 = ("existing_vpc_ids" : String).data then
      (parseStrList r3).map fun q => ({ doc with existing_vpc_ids := some q.1 }, q.2)
    else if p.1 = ("imported_vpc_configs" : String).data then
      (expectChar '\x7b' r3).bind fun r4 =>
      (parseConfigEntries r4).map fun q =>
      ({ doc with imported_vpc_configs := some (dictOfEntries q.1) }, q.2)
    else none

/-- Parse a sequence of top-level assignments until the input is exhausted
(fuel-bounded loop; every iteration consumes input). -/
def parseTfvarsAuxF : Nat → ParsedDoc → List Char → Option ParsedDoc
  | 0, _, _ => none
  | fuel + 1, doc, cs =>
    match skipWs cs with
    | [] => some doc
    | c :: r =>
      match parseTopAssign doc (c :: r) with
      | some (doc2, rest) => parseTfvarsAuxF fuel doc2 rest
      | none => none

/-- Modelled from the spec: the external `hcl2.loads` decoder (the
declarative-configuration-file parser, an opaque decode outside the
repository), restricted to the two-block schema of the generated variable
file.  `none` models a raised parse exception. -/
def hcl2_loads (content : String) : Option ParsedDoc :=
  parseTfvarsAuxF (content.data.length + 1) ⟨none, none, none⟩ content.data

/-- `read_existing_tfvars` (imp.py lines 33-43).  The file system is modelled
by the optional file content at the tfvars path; the returned boolean records
whether the warning branch was taken. -/
def read_existing_tfvars (file : Option String) :
    (List (String × VpcRecord) × List String) × Bool :=
  match file with
  | none => (([], []), false)
  | some content =>
    match hcl2_loads content with
    | some parsed =>
      ((parsed.imported_vpc_configs.getD [], parsed.existing_vpc_ids.getD []), false)
    | none => (([], []), true)

/-- `create_or_update_tfvars` (imp.py lines 129-179): read the prior file,
merge in the discovery result, and return the text written back to the
tfvars file. -/
def create_or_update_tfvars (file : Option String)
    (vpc_details : List (String × VpcRecord)) (region : String) : String :=
  let prior := (read_existing_tfvars file).1
  let merged := mergeVpcDetails prior.1 prior.2 vpc_details
  renderTfvars region merged.1 merged.2

/-! ### The discovery step and the `main` pipeline

Discovery and the provisioning driver interact with an external world (the
provider's batched query, subprocess exit codes).  The world is passed in
explicitly and the pipeline is modelled as a function producing the ordered
trace of externally visible actions together with the process exit code. -/

/-- Externally visible actions of a run, in program order. -/
inductive RunEvent where
  | mkdirs
  | writeScaffold (name : String)
  | describeVpcs (ids : List String)
  | describeAttr (vpcId attr : String)
  | writeTfvars (content : String)
  | tfInit
  | tfImport (vpcId : String)
  | importFailed (vpcId stdout stderr : String)
  | importOk (vpcId : String)
  | tfPlan
  | tfApply
  | fatalError (msg : String)
deriving DecidableEq, Repr

/-- The subprocess part of the external world: the exit code of
`terraform init`, the `(returncode, stdout, stderr)` of `terraform import`
for each id, and the exit codes of `terraform plan` and `terraform apply`. -/
structure SubprocEnv where
  init_code : Int
  import_results : String → Int × String × String
  plan_code : Int
  apply_code : Int

/-- The ids requested but absent from the provider's answer: Python's
`set(vpc_ids) - set(vpc_details.keys())` (an unordered set, modelled as the
deduplicated request-order list). -/
def missingVpcIds (vpc_ids : List String) (found : List String) : List String :=
  (vpc_ids.filter fun i => !(found.contains i)).dedup

/-- `fetch_vpc_details` (imp.py lines 7-31).  The provider's
`describe_vpcs` answer is the world input `response` (one entry per resolved
VPC, already carrying the two per-id DNS attributes fetched in the loop);
the function returns the trace of provider calls together with either the
details dictionary or the raised `VPCs not found` exception. -/
def fetch_vpc_details (response : List (String × VpcRecord)) (vpc_ids : List String) :
    List RunEvent × Except String (List (String × VpcRecord)) :=
  let attrEvents := (response.map fun p =>
    [RunEvent.describeAttr p.1 "enableDnsSupport",
     RunEvent.describeAttr p.1 "enableDnsHostnames"]).flatten
  let events := RunEvent.describeVpcs vpc_ids :: attrEvents
  let details := dictOfEntries response
  let missing := missingVpcIds vpc_ids (details.map Prod.fst)
  if missing = [] then (events, Except.ok details)
  else (events, Except.error ("VPCs not found: " ++ joinSep ", " missing))

/-- The scaffold files written by `create_directory_structure` and
`create_terraform_files` (imp.py lines 45-127), in write order.  Their
contents are static; only the writes themselves matter to the claims. -/
def scaffoldEvents : List RunEvent :=
  [RunEvent.mkdirs,
   RunEvent.writeScaffold "Parent_Module/main.tf",
   RunEvent.writeScaffold "Parent_Module/variables.tf",
   RunEvent.writeScaffold "Child_Module/main.tf",
   RunEvent.writeScaffold "Child_Module/variables.tf",
   RunEvent.writeScaffold "Child_Module/backend.tf"]

/-- The per-id import loop (imp.py lines 220-232): one `terraform import`
invocation per id, in request order; a non-zero returncode only prints the
captured stdout/stderr and the loop continues. -/
def runImports (env : SubprocEnv) (vpc_ids : List String) : List RunEvent :=
  (vpc_ids.map fun vid =>
    let r := env.import_results vid
    RunEvent.tfImport vid ::
      (if r.1 ≠ 0 then [RunEvent.importFailed vid r.2.1 r.2.2]
       else [RunEvent.importOk vid])).flatten

/-- `main` (imp.py lines 181-245), with the compiled-in configuration
(`vpc_ids`, `region`) passed as parameters: scaffold generation, then the
`try` block (discovery, tfvars write, init, imports, plan, apply), where any
raised exception prints the error and exits with code 1.  `subprocess.run`
with `check=True` raises on a non-zero exit (init/plan/apply); the import
invocations are not checked.  Returns the event trace and the process exit
code. -/
def mainRun (vpc_ids : List String) (region : String) (tfvarsFile : Option String)
    (response : List (String × VpcRecord)) (env : SubprocEnv) : List RunEvent × Nat :=
  let pre := scaffoldEvents
  let fetched := fetch_vpc_details response vpc_ids
  match fetched.2 with
  | Except.error msg => (pre ++ fetched.1 ++ [RunEvent.fatalError msg], 1)
  | Except.ok details =>
    let content := create_or_update_tfvars tfvarsFile details region
    let evs := pre ++ fetched.1 ++ [RunEvent.writeTfvars content, RunEvent.tfInit]
    if env.init_code ≠ 0 then (evs ++ [RunEvent.fatalError "terraform init failed"], 1)
    else
      let evs2 := evs ++ runImports env vpc_ids ++ [RunEvent.tfPlan]
      if env.plan_code ≠ 0 then (evs2 ++ [RunEvent.fatalError "terraform plan failed"], 1)
      else
        let evs3 := evs2 ++ [RunEvent.tfApply]
        if env.apply_code ≠ 0 then (evs3 ++ [RunEvent.fatalError "terraform apply failed"], 1)
        else (evs3, 0)

/-! ### Derived predicates and the spec-variant renderer -/

/-- A string without a double-quote character: the rendered HCL string
literal re-parses to exactly this string. -/
def NoQuote (s : String) : Prop := ∀ c ∈ s.data, c ≠ '"'

/-- A non-empty string of identifier characters (the shape of a renderable
tag key). -/
def IsIdentName (s : String) : Prop := s.data ≠ [] ∧ ∀ c ∈ s.data, isIdentChar c = true

/-- Well-formedness of a record for serialization: quote-free CIDR, tag keys
that are distinct identifiers, quote-free tag values.  Every record produced
by the decoder has this shape. -/
def WfRecord (r : VpcRecord) : Prop :=
  NoQuote r.cidr_block ∧ (r.tags.map Prod.fst).Nodup ∧
    ∀ kv ∈ r.tags, IsIdentName kv.1 ∧ NoQuote kv.2

/-- Well-formedness of a discovery result / configs dictionary: distinct
quote-free ids with well-formed records. -/
def WfDetails (l : List (String × VpcRecord)) : Prop :=
  (l.map Prod.fst).Nodup ∧ ∀ p ∈ l, NoQuote p.1 ∧ WfRecord p.2

/-- The store invariant stated by the spec: the ordered id sequence and the
id-to-record mapping stay in lock-step. -/
def LockStep (configs : List (String × VpcRecord)) (ids : List String) : Prop :=
  (∀ id ∈ ids, (dictGet configs id).isSome = true) ∧ ∀ p ∈ configs, p.1 ∈ ids

/-- Well-formedness of a partially parsed document: any ids parsed so far are
quote-free and any parsed config block is well formed. -/
def WfDoc (doc : ParsedDoc) : Prop :=
  (∀ l, doc.existing_vpc_ids = some l → ∀ i ∈ l, NoQuote i) ∧
  (∀ l, doc.imported_vpc_configs = some l → WfDetails l)

/-- The string a rendered id re-parses to: the raw characters of its
`json.dumps` escaping (equal to the id itself when the id has no backslash
or quote). -/
def jsonEscaped (s : String) : String := ⟨(s.data.map jsonEscChar).flatten⟩

/-- Rendering as the spec describes it: the per-id blocks produced by
iterating the ordered id sequence (not the mapping), looking each id up in
the mapping.  Follows the spec's words, for comparison with `renderTfvars`. -/
def renderTfvarsBySeq (region : String) (existing_configs : List (String × VpcRecord))
    (existing_vpc_ids : List String) : String :=
  "aws_region = \"" ++ region ++ "\"\n\nexisting_vpc_ids = " ++
    jsonDumpsStrList existing_vpc_ids ++ "\n\nimported_vpc_configs = \x7b\n" ++
    joinSep "\n" (existing_vpc_ids.filterMap fun vid =>
      (dictGet existing_configs vid).map (renderVpcConfig vid)) ++ "\n\x7d"

/-! ### Concrete fixtures used by witnesses and counterexamples -/

/-- A sample record with two tags. -/
def sampleRecA : VpcRecord := ⟨"10.0.0.0/16", true, false, [("Name", "alpha"), ("env", "prod")]⟩

/-- A sample record with an empty tag map. -/
def sampleRecB : VpcRecord := ⟨"10.1.0.0/16", false, true, []⟩

/-- A subprocess environment in which the import of `vpc-a` fails with a
captured diagnostic and everything else succeeds. -/
def wEnv : SubprocEnv :=
  ⟨0, fun id => if id = "vpc-a" then (1, "already managed", "import error") else (0, "", ""), 0, 0⟩

/-- A provider response resolving `vpc-a` and `vpc-b`. -/
def wResp : List (String × VpcRecord) := [("vpc-a", sampleRecA), ("vpc-b", sampleRecB)]

/-! ## Theorems

First, basic facts about the dictionary operations and the merge loop. -/

theorem dictGet_dictSet_self {α : Type} (m : List (String × α)) (k : String) (v : α) :
    dictGet (dictSet m k v) k = some v := by
  induction m with
  | nil => simp [dictSet, dictGet]
  | cons p r ih =>
    by_cases h : p.1 = k
    · simp [dictSet, dictGet, h]
    · simp [dictSet, dictGet, h, ih]

theorem dictGet_dictSet_ne {α : Type} (m : List (String × α)) (k k' : String) (v : α)
    (h : k ≠ k') : dictGet (dictSet m k v) k' = dictGet m k' := by
  induction m with
  | nil => simp [dictSet, dictGet, h]
  | cons p r ih =>
    by_cases hp : p.1 = k
    · simp [dictSet, dictGet, hp, h]
    · simp [dictSet, dictGet, hp, ih]

theorem dictSet_fst_mem {α : Type} (m : List (String × α)) (k k' : String) (v : α) :
    k' ∈ (dictSet m k v).map Prod.fst ↔ k' = k ∨ k' ∈ m.map Prod.fst := by
  induction m with
  | nil => simp [dictSet]
  | cons p r ih =>
    by_cases hp : p.1 = k
    · subst hp; by_cases hk : k' = p.1 <;> simp [dictSet, hk]
    · simp only [dictSet, if_neg hp, List.map_cons, List.mem_cons, ih]
      tauto

theorem dictSet_keys_nodup {α : Type} (m : List (String × α)) (k : String) (v : α)
    (h : (m.map Prod.fst).Nodup) : ((dictSet m k v).map Prod.fst).Nodup := by
  induction m with
  | nil => simp [dictSet]
  | cons p r ih =>
    simp only [List.map_cons, List.nodup_cons] at h
    by_cases hp : p.1 = k
    · subst hp; simpa [dictSet] using h
    · simp only [dictSet, if_neg hp, List.map_cons, List.nodup_cons]
      refine ⟨fun hc => ?_, ih h.2⟩
      rcases (dictSet_fst_mem r k p.1 v).1 hc with h1 | h1
      · exact hp h1
      · exact h.1 h1

theorem mergeVpcDetails_nil (c : List (String × VpcRecord)) (i : List String) :
    mergeVpcDetails c i [] = (c, i) := rfl

theorem mergeVpcDetails_cons (c : List (String × VpcRecord)) (i : List String)
    (p : String × VpcRecord) (R : List (String × VpcRecord)) :
    mergeVpcDetails c i (p :: R) =
      mergeVpcDetails (dictSet c p.1 p.2) (if p.1 ∈ i then i else i ++ [p.1]) R := rfl

theorem mergeVpcDetails_configs_not_mem (c : List (String × VpcRecord)) (i : List String)
    (R : List (String × VpcRecord)) (id : String) (h : id ∉ R.map Prod.fst) :
    dictGet (mergeVpcDetails c i R).1 id = dictGet c id := by
  induction R generalizing c i with
  | nil => rfl
  | cons p rest ih =>
    simp only [List.map_cons, List.mem_cons, not_or] at h
    rw [mergeVpcDetails_cons, ih _ _ h.2, dictGet_dictSet_ne _ _ _ _ (fun hk => h.1 hk.symm)]

theorem merge_dictGet_of_mem (c : List (String × VpcRecord)) (i : List String)
    (R : List (String × VpcRecord)) (id : String) (rec : VpcRecord)
    (hnd : (R.map Prod.fst).Nodup) (hmem : (id, rec) ∈ R) :
    dictGet (mergeVpcDetails c i R).1 id = some rec := by
  induction R generalizing c i with
  | nil => cases hmem
  | cons p rest ih =>
    simp only [List.map_cons, List.nodup_cons] at hnd
    rcases List.mem_cons.1 hmem with h | h
    · subst h
      rw [mergeVpcDetails_cons]
      rw [mergeVpcDetails_configs_not_mem _ _ _ _ hnd.1]
      exact dictGet_dictSet_self c id rec
    · rw [mergeVpcDetails_cons]
      exact ih _ _ hnd.2 h

/-- Claim C4: merging a discovery result containing an id already present in
the store replaces that id's entire record — CIDR, both flags, and the whole
tag map — with the new record (last-write-wins, no field-level merge). -/
theorem merge_last_write_wins (c : List (String × VpcRecord)) (i : List String)
    (R : List (String × VpcRecord)) (id : String) (rec : VpcRecord)
    (hnd : (R.map Prod.fst).Nodup) (hmem : (id, rec) ∈ R) :
    dictGet (mergeVpcDetails c i R).1 id = some rec :=
  merge_dictGet_of_mem c i R id rec hnd hmem

/-- Witness for C4 at a concrete store: the old record for `vpc-a` is fully
replaced by the new one. -/
theorem merge_last_write_wins_witness :
    ((([("vpc-a", sampleRecA)].map Prod.fst).Nodup ∧ ("vpc-a", sampleRecB) ∈ [("vpc-a", sampleRecB)]) ∧
      dictGet (mergeVpcDetails [("vpc-a", sampleRecA)] ["vpc-a"] [("vpc-a", sampleRecB)]).1 "vpc-a" =
        some sampleRecB) :=
  ⟨⟨by decide, by decide⟩,
    merge_last_write_wins [("vpc-a", sampleRecA)] ["vpc-a"] [("vpc-a", sampleRecB)]
      "vpc-a" sampleRecB (by decide) (by decide)⟩

theorem mergeVpcDetails_ids_extend (c : List (String × VpcRecord)) (i : List String)
    (R : List (String × VpcRecord)) :
    ∃ s, (mergeVpcDetails c i R).2 = i ++ s ∧ ∀ x ∈ s, x ∉ i := by
  induction R generalizing c i with
  | nil => exact ⟨[], by simp [mergeVpcDetails_nil]⟩
  | cons p rest ih =>
    rw [mergeVpcDetails_cons]
    by_cases hp : p.1 ∈ i
    · simpa [hp] using ih (dictSet c p.1 p.2) i
    · rw [if_neg hp]
      obtain ⟨s, hs, hns⟩ := ih (dictSet c p.1 p.2) (i ++ [p.1])
      refine ⟨p.1 :: s, by simpa using hs, ?_⟩
      intro x hx
      rcases List.mem_cons.1 hx with h | h
      · exact h ▸ hp
      · exact fun hxi => hns x h (List.mem_append_left _ hxi)

theorem mergeVpcDetails_ids_nodup (c : List (String × VpcRecord)) (i : List String)
    (R : List (String × VpcRecord)) (h : i.Nodup) : (mergeVpcDetails c i R).2.Nodup := by
  induction R generalizing c i with
  | nil => exact h
  | cons p rest ih =>
    rw [mergeVpcDetails_cons]
    by_cases hp : p.1 ∈ i
    · rw [if_pos hp]; exact ih _ _ h
    · rw [if_neg hp]
      refine ih _ _ ?_
      simpa [List.nodup_append] using ⟨h, hp⟩

/-- Claim C5: merging a new id C into a store with ordered id sequence [A, B]
appends C after A and B, keeping their order; merging an id already present
leaves the sequence unchanged; and merging never introduces duplicates into
the sequence. -/
theorem merge_order_preservation :
    (∀ (c : List (String × VpcRecord)) (A B C : String) (rec : VpcRecord),
        C ≠ A → C ≠ B → (mergeVpcDetails c [A, B] [(C, rec)]).2 = [A, B, C])
  ∧ (∀ (c : List (String × VpcRecord)) (i : List String) (id : String) (rec : VpcRecord),
        id ∈ i → (mergeVpcDetails c i [(id, rec)]).2 = i)
  ∧ (∀ (c : List (String × VpcRecord)) (i : List String) (R : List (String × VpcRecord)),
        i.Nodup → (mergeVpcDetails c i R).2.Nodup) := by
  refine ⟨fun c A B C rec hA hB => ?_, fun c i id rec hmem => ?_, fun c i R h => mergeVpcDetails_ids_nodup c i R h⟩
  · rw [mergeVpcDetails_cons]
    simp [hA, hB, mergeVpcDetails_nil]
  · rw [mergeVpcDetails_cons]
    simp [hmem, mergeVpcDetails_nil]

/-- Witness for C5: a concrete [A, B] store extended with C, a no-op re-merge
of A, and duplicate-freedom at a concrete input. -/
theorem merge_order_preservation_witness :
    (mergeVpcDetails [] ["vpc-a", "vpc-b"] [("vpc-c", sampleRecA)]).2 = ["vpc-a", "vpc-b", "vpc-c"] ∧
    (mergeVpcDetails [] ["vpc-a", "vpc-b"] [("vpc-a", sampleRecB)]).2 = ["vpc-a", "vpc-b"] ∧
    (mergeVpcDetails [] ["vpc-a", "vpc-b"] wResp).2.Nodup :=
  ⟨merge_order_preservation.1 [] "vpc-a" "vpc-b" "vpc-c" sampleRecA (by decide) (by decide),
   merge_order_preservation.2.1 [] ["vpc-a", "vpc-b"] "vpc-a" sampleRecB (by decide),
   merge_order_preservation.2.2 [] ["vpc-a", "vpc-b"] wResp (by decide)⟩

/-- Claim C6: `read_existing_tfvars` returns the empty store when the file is
absent, and logs a warning and returns the empty store (rather than raising)
when the file exists but does not parse under the two-block schema; being a
total function, it never turns a corrupted file into a fatal error. -/
theorem load_recovery (file : Option String) :
    (file = none → read_existing_tfvars file = (([], []), false))
  ∧ (∀ c, file = some c → hcl2_loads c = none →
      read_existing_tfvars file = (([], []), true)) := by
  constructor
  · rintro rfl; rfl
  · rintro c rfl hparse
    simp [read_existing_tfvars, hparse]

/-- Witness for C6: the absent file and a concrete unparseable file. -/
theorem load_recovery_witness :
    read_existing_tfvars none = (([], []), false) ∧
    (hcl2_loads "not a tfvars ???" = none ∧
      read_existing_tfvars (some "not a tfvars ???") = (([], []), true)) :=
  ⟨(load_recovery none).1 rfl,
   by decide,
   (load_recovery (some "not a tfvars ???")).2 "not a tfvars ???" rfl (by decide)⟩

theorem dictSet_mem {α : Type} (m : List (String × α)) (k : String) (v : α)
    (p : String × α) (hp : p ∈ dictSet m k v) : p = (k, v) ∨ p ∈ m := by
  induction m with
  | nil => simpa [dictSet] using hp
  | cons q r ih =>
    by_cases hq : q.1 = k
    · rcases List.mem_cons.1 (by simpa [dictSet, hq] using hp) with h | h
      · exact Or.inl h
      · exact Or.inr (List.mem_cons_of_mem _ h)
    · rcases List.mem_cons.1 (by simpa [dictSet, hq] using hp) with h | h
      · exact Or.inr (h ▸ List.mem_cons_self _ _)
      · rcases ih h with h1 | h1
        · exact Or.inl h1
        · exact Or.inr (List.mem_cons_of_mem _ h1)

theorem lockStep_merge_step (c : List (String × VpcRecord)) (i : List String)
    (k : String) (v : VpcRecord) (h : LockStep c i) :
    LockStep (dictSet c k v) (if k ∈ i then i else i ++ [k]) := by
  constructor
  · intro id hid
    by_cases hk : k = id
    · subst hk; simp [dictGet_dictSet_self]
    · rw [dictGet_dictSet_ne _ _ _ _ hk]
      apply h.1
      by_cases hki : k ∈ i
      · simpa [hki] using hid
      · rcases (by simpa [hki] using hid : id ∈ i ∨ id = k) with h1 | h1
        · exact h1
        · exact absurd h1.symm hk
  · intro p hp
    rcases dictSet_mem c k v p hp with h1 | h1
    · subst h1
      by_cases hki : k ∈ i <;> simp [hki]
    · have := h.2 p h1
      by_cases hki : k ∈ i <;> simp [hki, this]

theorem lockStep_merge (c : List (String × VpcRecord)) (i : List String)
    (R : List (String × VpcRecord)) (h : LockStep c i) :
    LockStep (mergeVpcDetails c i R).1 (mergeVpcDetails c i R).2 := by
  induction R generalizing c i with
  | nil => exact h
  | cons p rest ih =>
    rw [mergeVpcDetails_cons]
    exact ih _ _ (lockStep_merge_step c i p.1 p.2 h)

/-- Counterexample to claim C9: a well-formed prior file whose two blocks
disagree (`existing_vpc_ids` lists an id with no corresponding
`imported_vpc_configs` block) loads into a store that violates the lock-step
invariant. -/
theorem lockStep_load_cex :
    ¬ LockStep (read_existing_tfvars (some "existing_vpc_ids = [\"A\"]")).1.1
      (read_existing_tfvars (some "existing_vpc_ids = [\"A\"]")).1.2 := by
  intro h
  have := h.1 "A" (by decide)
  simp [read_existing_tfvars] at this
  revert this
  decide

/-- Claim C9, amended: the merge step preserves the lock-step invariant, and
`read_existing_tfvars` establishes it for an absent or unparseable file; but
a parseable file whose two blocks disagree loads into a store that violates
it (see the counterexample). -/
theorem lockStep_amended :
    (∀ (c : List (String × VpcRecord)) (i : List String) (R : List (String × VpcRecord)),
        LockStep c i →
          LockStep (mergeVpcDetails c i R).1 (mergeVpcDetails c i R).2)
  ∧ LockStep (read_existing_tfvars none).1.1 (read_existing_tfvars none).1.2
  ∧ (∀ s, hcl2_loads s = none →
        LockStep (read_existing_tfvars (some s)).1.1 (read_existing_tfvars (some s)).1.2) := by
  refine ⟨lockStep_merge, ⟨by simp [read_existing_tfvars, dictGet], by simp [read_existing_tfvars]⟩, ?_⟩
  intro s hs
  simp only [read_existing_tfvars, hs]
  exact ⟨by simp [dictGet], by simp⟩

/-- Witness for the amended C9: merging a fresh discovery result into the
empty store yields a lock-step store. -/
theorem lockStep_amended_witness :
    LockStep [] [] ∧
    LockStep (mergeVpcDetails [] [] wResp).1 (mergeVpcDetails [] [] wResp).2 :=
  ⟨⟨by simp [dictGet], by simp⟩,
   lockStep_amended.1 [] [] wResp ⟨by simp [dictGet], by simp⟩⟩

theorem foldl_dictSet_keys_mem {α : Type} (l acc : List (String × α)) (a : String) :
    (a ∈ ((l.foldl (fun m p => dictSet m p.1 p.2) acc).map Prod.fst)) ↔
      a ∈ acc.map Prod.fst ∨ a ∈ l.map Prod.fst := by
  induction l generalizing acc with
  | nil => simp
  | cons p rest ih =>
    simp only [List.foldl_cons, List.map_cons, List.mem_cons, ih, dictSet_fst_mem]
    tauto

theorem dictOfEntries_keys_mem {α : Type} (l : List (String × α)) (a : String) :
    a ∈ (dictOfEntries l).map Prod.fst ↔ a ∈ l.map Prod.fst := by
  simpa [dictOfEntries] using foldl_dictSet_keys_mem l [] a

theorem missingVpcIds_mem (resp : List (String × VpcRecord)) (vpc_ids : List String)
    (id : String) :
    id ∈ missingVpcIds vpc_ids ((dictOfEntries resp).map Prod.fst) ↔
      id ∈ vpc_ids ∧ ∀ rec, (id, rec) ∉ resp := by
  have hc : ∀ l : List String, (l.contains id = false) ↔ id ∉ l := by
    intro l
    rw [← Bool.not_eq_true, not_iff_not, List.elem_iff]
  simp only [missingVpcIds, List.mem_dedup, List.mem_filter, Bool.not_eq_eq_eq_not,
    Bool.not_true, hc, dictOfEntries_keys_mem]
  constructor
  · rintro ⟨h1, h2⟩
    refine ⟨h1, fun rec hmem => h2 ?_⟩
    exact List.mem_map.2 ⟨(id, rec), hmem, rfl⟩
  · rintro ⟨h1, h2⟩
    refine ⟨h1, fun hmem => ?_⟩
    obtain ⟨p, hp, hfst⟩ := List.mem_map.1 hmem
    exact h2 p.2 (by simpa [← hfst] using hp)

/-- Claim C3: when the provider resolves only a strict subset of the
requested ids, discovery raises an error whose comma-joined id list names
exactly the missing ids, and the error is produced only after the batched
query and the per-resolved-id attribute lookups appear in the call trace. -/
theorem discovery_missing_fatal (resp : List (String × VpcRecord)) (vpc_ids : List String)
    (hmiss : missingVpcIds vpc_ids ((dictOfEntries resp).map Prod.fst) ≠ []) :
    ((fetch_vpc_details resp vpc_ids).2 =
        Except.error ("VPCs not found: " ++
          joinSep ", " (missingVpcIds vpc_ids ((dictOfEntries resp).map Prod.fst))))
  ∧ (∀ id, id ∈ missingVpcIds vpc_ids ((dictOfEntries resp).map Prod.fst) ↔
        id ∈ vpc_ids ∧ ∀ rec, (id, rec) ∉ resp)
  ∧ (fetch_vpc_details resp vpc_ids).1.head? = some (RunEvent.describeVpcs vpc_ids)
  ∧ (∀ p ∈ resp,
        RunEvent.describeAttr p.1 "enableDnsSupport" ∈ (fetch_vpc_details resp vpc_ids).1 ∧
        RunEvent.describeAttr p.1 "enableDnsHostnames" ∈ (fetch_vpc_details resp vpc_ids).1) := by
  refine ⟨?_, fun id => missingVpcIds_mem resp vpc_ids id, ?_, ?_⟩
  · simp [fetch_vpc_details, hmiss]
  · simp only [fetch_vpc_details]
    split <;> rfl
  · intro p hp
    constructor <;>
    · simp only [fetch_vpc_details]
      split <;>
      · simp only [List.mem_cons, List.mem_flatten]
        exact Or.inr ⟨_, List.mem_map.2 ⟨p, hp, rfl⟩, by simp⟩

/-- Witness for C3: requested ids `vpc-x`, `vpc-y` with only `vpc-x`
resolving; the error names exactly `vpc-y`. -/
theorem discovery_missing_fatal_witness :
    missingVpcIds ["vpc-x", "vpc-y"] ((dictOfEntries [("vpc-x", sampleRecA)]).map Prod.fst) = ["vpc-y"] ∧
    (fetch_vpc_details [("vpc-x", sampleRecA)] ["vpc-x", "vpc-y"]).2 =
      Except.error ("VPCs not found: " ++
        joinSep ", " (missingVpcIds ["vpc-x", "vpc-y"] ((dictOfEntries [("vpc-x", sampleRecA)]).map Prod.fst))) :=
  ⟨by decide,
   (discovery_missing_fatal [("vpc-x", sampleRecA)] ["vpc-x", "vpc-y"] (by decide)).1⟩

theorem fetch_events_eq (resp : List (String × VpcRecord)) (vpc_ids : List String) :
    (fetch_vpc_details resp vpc_ids).1 =
      RunEvent.describeVpcs vpc_ids ::
        (resp.map fun p =>
          [RunEvent.describeAttr p.1 "enableDnsSupport",
           RunEvent.describeAttr p.1 "enableDnsHostnames"]).flatten := by
  simp only [fetch_vpc_details]
  split <;> rfl

/-- Claim C2: with ids [V1, V2] where V1's import exits non-zero and V2's
exits zero (and init succeeded), the run performs both imports, reports V1's
failure with its captured stdout/stderr, proceeds to plan (and to apply when
plan succeeds), and its exit code is determined by the plan/apply outcomes
alone. -/
theorem import_isolation (V1 V2 region : String) (tf : Option String)
    (resp : List (String × VpcRecord)) (env : SubprocEnv)
    (hok : missingVpcIds [V1, V2] ((dictOfEntries resp).map Prod.fst) = [])
    (hinit : env.init_code = 0)
    (h1 : (env.import_results V1).1 ≠ 0) (h2 : (env.import_results V2).1 = 0) :
    RunEvent.tfImport V1 ∈ (mainRun [V1, V2] region tf resp env).1
  ∧ RunEvent.tfImport V2 ∈ (mainRun [V1, V2] region tf resp env).1
  ∧ RunEvent.importFailed V1 (env.import_results V1).2.1 (env.import_results V1).2.2 ∈
      (mainRun [V1, V2] region tf resp env).1
  ∧ RunEvent.tfPlan ∈ (mainRun [V1, V2] region tf resp env).1
  ∧ (env.plan_code = 0 → RunEvent.tfApply ∈ (mainRun [V1, V2] region tf resp env).1)
  ∧ (mainRun [V1, V2] region tf resp env).2 =
      (if env.plan_code ≠ 0 then 1 else if env.apply_code ≠ 0 then 1 else 0) := by
  have hfetch : fetch_vpc_details resp [V1, V2] =
      ((fetch_vpc_details resp [V1, V2]).1, Except.ok (dictOfEntries resp)) := by
    simp only [fetch_vpc_details, hok]
    simp [fetch_events_eq resp [V1, V2], fetch_vpc_details, hok]
  rw [mainRun, hfetch]
  simp only [hinit]
  by_cases hp : env.plan_code = 0 <;> by_cases ha : env.apply_code = 0 <;>
    simp [hp, ha, runImports, h1, h2]

/-- Witness for C2: a concrete run in which `vpc-a`'s import fails,
`vpc-b`'s succeeds, and plan/apply succeed; the failure is reported and the
exit code is 0. -/
theorem import_isolation_witness :
    RunEvent.importFailed "vpc-a" "already managed" "import error" ∈
      (mainRun ["vpc-a", "vpc-b"] "us-east-1" none wResp wEnv).1
  ∧ RunEvent.tfPlan ∈ (mainRun ["vpc-a", "vpc-b"] "us-east-1" none wResp wEnv).1
  ∧ (mainRun ["vpc-a", "vpc-b"] "us-east-1" none wResp wEnv).2 = 0 := by
  obtain ⟨m1, m2, m3, m4, m5, m6⟩ :=
    import_isolation "vpc-a" "vpc-b" "us-east-1" none wResp wEnv
      (by decide) rfl (by decide) rfl
  exact ⟨m3, m4, by simpa using m6⟩

/-- Claim C7, amended: a run whose discovery fails exits with code 1 without
writing the variable file and without invoking the provisioning tool — but
only after the scaffold files have already been (re)written (see the
counterexample for the scaffold part of the original claim). -/
theorem discovery_aborts_amended (ids : List String) (region : String)
    (tf : Option String) (resp : List (String × VpcRecord)) (env : SubprocEnv)
    (hmiss : missingVpcIds ids ((dictOfEntries resp).map Prod.fst) ≠ []) :
    (mainRun ids region tf resp env).2 = 1
  ∧ (∀ c, RunEvent.writeTfvars c ∉ (mainRun ids region tf resp env).1)
  ∧ RunEvent.tfInit ∉ (mainRun ids region tf resp env).1
  ∧ RunEvent.tfPlan ∉ (mainRun ids region tf resp env).1
  ∧ RunEvent.tfApply ∉ (mainRun ids region tf resp env).1 := by
  have hfetch : fetch_vpc_details resp ids =
      ((fetch_vpc_details resp ids).1,
        Except.error ("VPCs not found: " ++
          joinSep ", " (missingVpcIds ids ((dictOfEntries resp).map Prod.fst)))) := by
    simp only [fetch_vpc_details, hmiss]
    simp [fetch_events_eq resp ids, fetch_vpc_details, hmiss]
  rw [mainRun, hfetch]
  simp only [fetch_events_eq resp ids]
  refine ⟨by simp, ?_, ?_, ?_, ?_⟩ <;>
  · intros
    simp [scaffoldEvents, List.mem_flatten]

/-- Counterexample to claim C7: a run whose discovery fails (only `vpc-a`
resolves) has already created/overwritten every scaffold file before the
discovery failure — the trace shows the five scaffold writes preceding the
fatal error, with exit code 1. -/
theorem discovery_aborts_cex :
    mainRun ["vpc-a", "vpc-b"] "us-east-1" none [("vpc-a", sampleRecA)] wEnv =
      ([RunEvent.mkdirs,
        RunEvent.writeScaffold "Parent_Module/main.tf",
        RunEvent.writeScaffold "Parent_Module/variables.tf",
        RunEvent.writeScaffold "Child_Module/main.tf",
        RunEvent.writeScaffold "Child_Module/variables.tf",
        RunEvent.writeScaffold "Child_Module/backend.tf",
        RunEvent.describeVpcs ["vpc-a", "vpc-b"],
        RunEvent.describeAttr "vpc-a" "enableDnsSupport",
        RunEvent.describeAttr "vpc-a" "enableDnsHostnames",
        RunEvent.fatalError "VPCs not found: vpc-b"],
       1) := by
  decide

/-- Witness for the amended C7 at the same concrete failing run. -/
theorem discovery_aborts_amended_witness :
    missingVpcIds ["vpc-a", "vpc-b"] ((dictOfEntries [("vpc-a", sampleRecA)]).map Prod.fst) ≠ [] ∧
    (mainRun ["vpc-a", "vpc-b"] "us-east-1" none [("vpc-a", sampleRecA)] wEnv).2 = 1 ∧
    RunEvent.tfPlan ∉ (mainRun ["vpc-a", "vpc-b"] "us-east-1" none [("vpc-a", sampleRecA)] wEnv).1 :=
  ⟨by decide,
   (discovery_aborts_amended ["vpc-a", "vpc-b"] "us-east-1" none [("vpc-a", sampleRecA)] wEnv
      (by decide)).1,
   (discovery_aborts_amended ["vpc-a", "vpc-b"] "us-east-1" none [("vpc-a", sampleRecA)] wEnv
      (by decide)).2.2.2.1⟩

/-- Counterexample to claim C8: for a store whose mapping order `A, B`
differs from its ordered id sequence `B, A`, the source's rendering (which
iterates the mapping) differs from the spec's sequence-driven rendering. -/
theorem render_order_cex :
    renderTfvars "r" [("A", sampleRecB), ("B", sampleRecA)] ["B", "A"] ≠
      renderTfvarsBySeq "r" [("A", sampleRecB), ("B", sampleRecA)] ["B", "A"] := by
  decide

theorem filterMap_dictGet (configs : List (String × VpcRecord))
    (hnd : (configs.map Prod.fst).Nodup) :
    ((configs.map Prod.fst).filterMap fun vid =>
        (dictGet configs vid).map (renderVpcConfig vid)) =
      configs.map fun p => renderVpcConfig p.1 p.2 := by
  induction configs with
  | nil => rfl
  | cons q rest ih =>
    obtain ⟨k, v⟩ := q
    simp only [List.map_cons, List.nodup_cons] at hnd
    have hcongr : ∀ vid ∈ rest.map Prod.fst,
        (dictGet ((k, v) :: rest) vid).map (renderVpcConfig vid) =
          (dictGet rest vid).map (renderVpcConfig vid) := by
      intro vid hvid
      have hne : ¬ (k = vid) := fun h => hnd.1 (h ▸ hvid)
      simp [dictGet, hne]
    have h1 : (dictGet ((k, v) :: rest) k).map (renderVpcConfig k) = some (renderVpcConfig k v) := by
      simp [dictGet]
    rw [List.map_cons, List.filterMap_cons, h1, List.filterMap_congr hcongr, ih hnd.2]
    rfl

/-- Claim C8, amended: the rendering emits the region declaration, then the
ordered id list, then one block per id — produced by iterating the mapping
in its stored insertion order (the source iterates `existing_configs`, not
the id sequence).  When the id sequence agrees with the mapping's key order
(as it does for every store this program itself writes), the source
rendering coincides with the spec's sequence-driven rendering; the rendering
is a function of the store and region, hence deterministic. -/
theorem render_iterates_mapping (region : String) (configs : List (String × VpcRecord))
    (ids : List String) (hnd : (configs.map Prod.fst).Nodup)
    (hids : ids = configs.map Prod.fst) :
    renderTfvars region configs ids = renderTfvarsBySeq region configs ids := by
  subst hids
  simp only [renderTfvars, renderTfvarsBySeq, filterMap_dictGet configs hnd]

/-- Witness for the amended C8 at a concrete two-entry store. -/
theorem render_iterates_mapping_witness :
    renderTfvars "us-east-1" [("A", sampleRecB), ("B", sampleRecA)] ["A", "B"] =
      renderTfvarsBySeq "us-east-1" [("A", sampleRecB), ("B", sampleRecA)] ["A", "B"] :=
  render_iterates_mapping "us-east-1" [("A", sampleRecB), ("B", sampleRecA)] ["A", "B"]
    (by decide) (by decide)

/-! ### Round-trip: the serialized text re-parses to the serialized store

The lemmas below step the decoder through the output of `renderTfvars`,
bottom-up: string literals, identifiers, whitespace, then each block level. -/

theorem str_data_append (s t : String) : (s ++ t).data = s.data ++ t.data := rfl

theorem skipWs_append_ws (w l : List Char) (hw : ∀ c ∈ w, isWsChar c = true) :
    skipWs (w ++ l) = skipWs l := by
  induction w with
  | nil => rfl
  | cons c r ih =>
    rw [List.cons_append, skipWs, if_pos (hw c (List.mem_cons_self c r))]
    exact ih fun x hx => hw x (List.mem_cons_of_mem c hx)

theorem skipWs_cons_not (c : Char) (l : List Char) (h : isWsChar c = false) :
    skipWs (c :: l) = c :: l := by
  rw [skipWs, if_neg (by simp [h])]

theorem ident_not_ws (c : Char) (h : isIdentChar c = true) : isWsChar c = false := by
  by_contra hw
  have hw' : isWsChar c = true := by
    revert hw; cases isWsChar c <;> simp
  have : ((c = ' ' ∨ c = '\n') ∨ c = '\t') ∨ c = '\r' := by
    simpa [isWsChar] using hw'
  rcases this with ((h1 | h1) | h1) | h1 <;> subst h1 <;> revert h <;> decide

theorem skipWs_ident_head (k l : List Char) (hk : ∀ c ∈ k, isIdentChar c = true)
    (hne : k ≠ []) : skipWs (k ++ l) = k ++ l := by
  cases k with
  | nil => exact absurd rfl hne
  | cons c r =>
    rw [List.cons_append]
    exact skipWs_cons_not c (r ++ l) (ident_not_ws c (hk c (List.mem_cons_self c r)))

theorem takeIdent_append (i : List Char) (c : Char) (rest : List Char)
    (hi : ∀ x ∈ i, isIdentChar x = true) (hc : isIdentChar c = false) :
    takeIdent (i ++ c :: rest) = (i, c :: rest) := by
  induction i with
  | nil =>
    rw [List.nil_append, takeIdent, if_neg (by simp [hc])]
  | cons x r ih =>
    rw [List.cons_append, takeIdent, if_pos (hi x (List.mem_cons_self x r)),
      ih fun y hy => hi y (List.mem_cons_of_mem x hy)]

theorem takeStrBody_append (s rest : List Char) (hs : ∀ c ∈ s, c ≠ '"') :
    takeStrBody (s ++ '"' :: rest) = some (s, rest) := by
  induction s with
  | nil =>
    rw [List.nil_append, takeStrBody, if_pos rfl]
  | cons c r ih =>
    rw [List.cons_append, takeStrBody, if_neg (hs c (List.mem_cons_self c r)),
      ih fun y hy => hs y (List.mem_cons_of_mem c hy)]

theorem parseStringLit_append (s : String) (rest : List Char) (hs : NoQuote s) :
    parseStringLit ('"' :: (s.data ++ '"' :: rest)) = some (s, rest) := by
  rw [parseStringLit, if_pos rfl, takeStrBody_append s.data rest hs]
  rfl

theorem jsonEsc_no_quote (s : String) (hs : NoQuote s) :
    ∀ c ∈ (s.data.map jsonEscChar).flatten, c ≠ '"' := by
  intro c hc
  obtain ⟨l, hl, hcl⟩ := List.mem_flatten.1 hc
  obtain ⟨c', hc', rfl⟩ := List.mem_map.1 hl
  by_cases h1 : c' = '\\'
  · subst h1
    rcases (by simpa [jsonEscChar] using hcl : c = '\\' ∨ c = '\\') with rfl | rfl <;> decide
  · have h2 : c' ≠ '"' := hs c' hc'
    have : c = c' := by simpa [jsonEscChar, h1, h2] using hcl
    exact this ▸ h2

theorem parseStringLit_json (s : String) (rest : List Char) (hs : NoQuote s) :
    parseStringLit ((jsonStr s).data ++ rest) = some (jsonEscaped s, rest) := by
  have hshape : (jsonStr s).data ++ rest =
      '"' :: ((s.data.map jsonEscChar).flatten ++ '"' :: rest) := by
    simp [jsonStr]
  rw [hshape, parseStringLit, if_pos rfl, takeStrBody_append _ rest (jsonEsc_no_quote s hs)]
  rfl

theorem expectEq_sp (l : List Char) : expectEq (' ' :: '=' :: l) = some l := by
  simp [expectEq, skipWs, isWsChar, expectChar]

theorem parseTagEntriesF_entry (k v : String) (f : Nat) (suffix : List Char)
    (hk : IsIdentName k) (hv : NoQuote v) :
    parseTagEntriesF (f + 1) ('\n' :: (("      " ++ k ++ " = \"" ++ v ++ "\"").data ++ suffix)) =
      match parseTagEntriesF f suffix with
      | some (tags, r4) => some ((k, v) :: tags, r4)
      | none => none := by
  have hdata : ('\n' :: (("      " ++ k ++ " = \"" ++ v ++ "\"").data ++ suffix)) =
      ['\n', ' ', ' ', ' ', ' ', ' ', ' '] ++
        (k.data ++ (' ' :: '=' :: ' ' :: '"' :: (v.data ++ '"' :: suffix))) := by
    simp [str_data_append]
  rw [hdata, parseTagEntriesF, skipWs_append_ws _ _ (by decide),
    skipWs_ident_head k.data _ hk.2 hk.1]
  rcases hker : k.data with _ | ⟨kc, ktl⟩
  · exact absurd hker hk.1
  · have hkc : isIdentChar kc = true := hk.2 kc (by rw [hker]; exact List.mem_cons_self _ _)
    have hne : ¬ (kc = '\x7d') := by
      intro h
      rw [h] at hkc
      exact absurd hkc (by decide)
    rw [List.cons_append]
    simp only [hne, if_false, ite_false]
    have htake : takeIdent (kc :: (ktl ++ (' ' :: '=' :: ' ' :: '"' :: (v.data ++ '"' :: suffix)))) =
        (kc :: ktl, ' ' :: '=' :: ' ' :: '"' :: (v.data ++ '"' :: suffix)) := by
      have := takeIdent_append (kc :: ktl) ' ' ('=' :: ' ' :: '"' :: (v.data ++ '"' :: suffix))
        (fun x hx => hk.2 x (by rw [hker]; exact hx)) (by decide)
      simpa using this
    rw [htake]
    have hnil : ¬ (kc :: ktl = []) := by simp
    simp only [hnil, if_false, ite_false, expectEq_sp]
    have hsk : skipWs (' ' :: '"' :: (v.data ++ '"' :: suffix)) = '"' :: (v.data ++ '"' :: suffix) := by
      simp [skipWs, isWsChar]
    rw [hsk, parseStringLit_append v suffix hv]
    have : (⟨kc :: ktl⟩ : String) = k := by rw [← hker]
    rw [this]

theorem parseTagEntriesF_ws_close (f : Nat) (w rest : List Char)
    (hw : ∀ c ∈ w, isWsChar c = true) :
    parseTagEntriesF (f + 1) (w ++ '\x7d' :: rest) = some ([], rest) := by
  rw [parseTagEntriesF, skipWs_append_ws _ _ hw, skipWs_cons_not _ _ (by decide)]
  simp

theorem parseTagEntriesF_render (tags : List (String × String)) (f : Nat) (rest : List Char)
    (hf : tags.length < f)
    (hwf : ∀ kv ∈ tags, IsIdentName kv.1 ∧ NoQuote kv.2) :
    parseTagEntriesF f
      ('\n' :: ((formatTags tags).data ++ ('\n' :: ' ' :: ' ' :: ' ' :: ' ' :: '\x7d' :: rest))) =
      some (tags, rest) := by
  induction tags generalizing f with
  | nil =>
    obtain ⟨f', rfl⟩ : ∃ f', f = f' + 1 := ⟨f - 1, by omega⟩
    have hshape : ('\n' :: ((formatTags []).data ++ ('\n' :: ' ' :: ' ' :: ' ' :: ' ' :: '\x7d' :: rest))) =
        ['\n', '\n', ' ', ' ', ' ', ' '] ++ '\x7d' :: rest := by
      simp [formatTags, joinSep]
    rw [hshape, parseTagEntriesF_ws_close f' _ rest (by decide)]
  | cons kv tl ih =>
    obtain ⟨f', rfl⟩ : ∃ f', f = f' + 1 := ⟨f - 1, by omega⟩
    obtain ⟨k, v⟩ := kv
    have hkv := hwf (k, v) (List.mem_cons_self _ _)
    cases tl with
    | nil =>
      have hshape : ('\n' :: ((formatTags [(k, v)]).data ++
          ('\n' :: ' ' :: ' ' :: ' ' :: ' ' :: '\x7d' :: rest))) =
          ('\n' :: (("      " ++ k ++ " = \"" ++ v ++ "\"").data ++
            ('\n' :: ' ' :: ' ' :: ' ' :: ' ' :: '\x7d' :: rest))) := by
        simp [formatTags, joinSep]
      rw [hshape, parseTagEntriesF_entry k v f' _ hkv.1 hkv.2]
      obtain ⟨f2, rfl⟩ : ∃ f2, f' = f2 + 1 := ⟨f' - 1, by simp at hf; omega⟩
      have hshape2 : ('\n' :: ' ' :: ' ' :: ' ' :: ' ' :: '\x7d' :: rest) =
          ['\n', ' ', ' ', ' ', ' '] ++ '\x7d' :: rest := rfl
      rw [hshape2, parseTagEntriesF_ws_close f2 _ rest (by decide)]
    | cons kv2 tl2 =>
      have hshape : ('\n' :: ((formatTags ((k, v) :: kv2 :: tl2)).data ++
          ('\n' :: ' ' :: ' ' :: ' ' :: ' ' :: '\x7d' :: rest))) =
          ('\n' :: (("      " ++ k ++ " = \"" ++ v ++ "\"").data ++
            ('\n' :: ((formatTags (kv2 :: tl2)).data ++
              ('\n' :: ' ' :: ' ' :: ' ' :: ' ' :: '\x7d' :: rest))))) := by
        simp [formatTags, joinSep, str_data_append]
      rw [hshape, parseTagEntriesF_entry k v f' _ hkv.1 hkv.2,
        ih f' (by simpa using Nat.lt_of_succ_lt_succ hf)
          (fun x hx => hwf x (List.mem_cons_of_mem _ hx))]
theorem dictSet_append_of_not_mem {α : Type} (m : List (String × α)) (k : String) (v : α)
    (h : k ∉ m.map Prod.fst) : dictSet m k v = m ++ [(k, v)] := by
  induction m with
  | nil => rfl
  | cons p r ih =>
    simp only [List.map_cons, List.mem_cons, not_or] at h
    rw [dictSet, if_neg (fun hh => h.1 hh.symm), ih h.2, List.cons_append]

theorem foldl_dictSet_nodup {α : Type} (l acc : List (String × α))
    (hn : (l.map Prod.fst).Nodup) (hd : ∀ k ∈ l.map Prod.fst, k ∉ acc.map Prod.fst) :
    l.foldl (fun m p => dictSet m p.1 p.2) acc = acc ++ l := by
  induction l generalizing acc with
  | nil => simp
  | cons p r ih =>
    simp only [List.map_cons, List.nodup_cons] at hn
    have hstep : dictSet acc p.1 p.2 = acc ++ [p] := by
      rw [dictSet_append_of_not_mem acc p.1 p.2 (hd p.1 (by simp))]
    have hd2 : ∀ k ∈ r.map Prod.fst, k ∉ (acc ++ [p]).map Prod.fst := by
      intro k hk
      simp only [List.map_append, List.mem_append, List.map_cons, List.map_nil,
        List.mem_singleton, not_or]
      exact ⟨hd k (by simp [hk]), fun h1 => hn.1 (h1 ▸ hk)⟩
    rw [List.foldl_cons, hstep, ih (acc ++ [p]) hn.2 hd2, List.append_assoc]
    rfl

theorem dictOfEntries_nodup_id {α : Type} (l : List (String × α))
    (hn : (l.map Prod.fst).Nodup) : dictOfEntries l = l := by
  simpa [dictOfEntries] using foldl_dictSet_nodup l [] hn (by simp)

theorem parseBool_append (b : Bool) (l : List Char) :
    parseBool ((pyBoolStr b).data ++ l) = some (b, l) := by
  cases b <;> simp [pyBoolStr, parseBool]

theorem skipWs_sp_bool (b : Bool) (l : List Char) :
    skipWs (' ' :: ((pyBoolStr b).data ++ l)) = (pyBoolStr b).data ++ l := by
  cases b <;> simp [pyBoolStr, skipWs, isWsChar]

theorem tags_len_le (tags : List (String × String)) :
    tags.length ≤ (formatTags tags).data.length := by
  induction tags with
  | nil => simp
  | cons kv tl ih =>
    cases tl with
    | nil => simp [formatTags, joinSep, str_data_append]
    | cons kv2 tl2 =>
      have heq : formatTags (kv :: kv2 :: tl2) =
          (("      " ++ kv.1 ++ " = \"" ++ kv.2 ++ "\"") ++ "\n") ++ formatTags (kv2 :: tl2) := by
        simp [formatTags, joinSep]
      rw [List.length_cons, heq, str_data_append, List.length_append]
      have h1 : 1 ≤ (("      " ++ kv.1 ++ " = \"" ++ kv.2 ++ "\"") ++ "\n").data.length := by
        simp [str_data_append]
      omega

theorem parseTagEntries_render (tags : List (String × String)) (rest : List Char)
    (hwf : ∀ kv ∈ tags, IsIdentName kv.1 ∧ NoQuote kv.2) :
    parseTagEntries
      ('\n' :: ((formatTags tags).data ++ ('\n' :: ' ' :: ' ' :: ' ' :: ' ' :: '\x7d' :: rest))) =
      some (tags, rest) := by
  rw [parseTagEntries]
  refine parseTagEntriesF_render tags _ rest ?_ hwf
  have := tags_len_le tags
  simp only [List.length_cons, List.length_append]
  omega

set_option maxHeartbeats 1600000 in
theorem parseVpcRecord_render (c : VpcRecord) (suffix : List Char) (hc : WfRecord c) :
    parseVpcRecord ((" \x7b\n    cidr_block           = \"" ++ c.cidr_block ++
        "\"\n    enable_dns_support   = " ++ pyBoolStr c.enable_dns_support ++
        "\n    enable_dns_hostnames = " ++ pyBoolStr c.enable_dns_hostnames ++
        "\n    tags = \x7b\n" ++ formatTags c.tags ++ "\n    \x7d\n  \x7d").data ++ suffix)
      = some (c, suffix) := by
  obtain ⟨hcidr, hnodup, htags⟩ := hc
  obtain ⟨cidr, b1, b2, tags⟩ := c
  dsimp only at hcidr hnodup htags ⊢
  have htagparse := parseTagEntries_render tags ('\n' :: ' ' :: ' ' :: '\x7d' :: suffix) htags
  simp only [formatTags] at htagparse
  cases b1 <;> cases b2 <;>
    (simp [parseVpcRecord, str_data_append, skipWs, isWsChar, expectChar, expectKey,
      takeIdent, isIdentChar, expectEq, parseStringLit_append, hcidr, pyBoolStr, parseBool];
     rw [htagparse];
     simp [skipWs, isWsChar, dictOfEntries_nodup_id tags hnodup])

theorem parseConfigEntry_render (vid : String) (c : VpcRecord) (suffix : List Char)
    (hvid : NoQuote vid) (hc : WfRecord c) :
    parseConfigEntry ('"' :: (vid.data ++ ('"' ::
      ((" = \x7b\n    cidr_block           = \"" ++ c.cidr_block ++
        "\"\n    enable_dns_support   = " ++ pyBoolStr c.enable_dns_support ++
        "\n    enable_dns_hostnames = " ++ pyBoolStr c.enable_dns_hostnames ++
        "\n    tags = \x7b\n" ++ formatTags c.tags ++ "\n    \x7d\n  \x7d").data ++ suffix)))) =
      some ((vid, c), suffix) := by
  rw [parseConfigEntry, parseStringLit_append vid _ hvid]
  have hshape : ((" = \x7b\n    cidr_block           = \"" ++ c.cidr_block ++
        "\"\n    enable_dns_support   = " ++ pyBoolStr c.enable_dns_support ++
        "\n    enable_dns_hostnames = " ++ pyBoolStr c.enable_dns_hostnames ++
        "\n    tags = \x7b\n" ++ formatTags c.tags ++ "\n    \x7d\n  \x7d").data ++ suffix) =
      ' ' :: '=' :: ((" \x7b\n    cidr_block           = \"" ++ c.cidr_block ++
        "\"\n    enable_dns_support   = " ++ pyBoolStr c.enable_dns_support ++
        "\n    enable_dns_hostnames = " ++ pyBoolStr c.enable_dns_hostnames ++
        "\n    tags = \x7b\n" ++ formatTags c.tags ++ "\n    \x7d\n  \x7d").data ++ suffix) := by
    simp [str_data_append]
  simp only [Option.some_bind, hshape, expectEq_sp, parseVpcRecord_render c suffix hc]
  rfl

theorem parseConfigEntriesF_ws_close (f : Nat) (w rest : List Char)
    (hw : ∀ c ∈ w, isWsChar c = true) :
    parseConfigEntriesF (f + 1) (w ++ '\x7d' :: rest) = some ([], rest) := by
  rw [parseConfigEntriesF, skipWs_append_ws _ _ hw, skipWs_cons_not _ _ (by decide)]
  simp

theorem parseConfigEntriesF_render (l : List (String × VpcRecord)) (f : Nat) (rest : List Char)
    (hf : l.length < f) (hwf : ∀ p ∈ l, NoQuote p.1 ∧ WfRecord p.2) :
    parseConfigEntriesF f
      ('\n' :: ((joinSep "\n" (l.map fun p => renderVpcConfig p.1 p.2)).data ++
        ('\n' :: '\x7d' :: rest))) =
      some (l, rest) := by
  induction l generalizing f with
  | nil =>
    obtain ⟨f', rfl⟩ : ∃ f', f = f' + 1 := ⟨f - 1, by omega⟩
    have hshape : ('\n' :: ((joinSep "\n" (([] : List (String × VpcRecord)).map
          fun p => renderVpcConfig p.1 p.2)).data ++ ('\n' :: '\x7d' :: rest))) =
        ['\n', '\n'] ++ '\x7d' :: rest := by
      simp [joinSep]
    rw [hshape, parseConfigEntriesF_ws_close f' _ rest (by decide)]
  | cons p tl ih =>
    obtain ⟨f', rfl⟩ : ∃ f', f = f' + 1 := ⟨f - 1, by omega⟩
    obtain ⟨vid, c⟩ := p
    have hp := hwf (vid, c) (List.mem_cons_self _ _)
    rw [parseConfigEntriesF]
    cases tl with
    | nil =>
      have he := parseConfigEntry_render vid c ('\n' :: '\x7d' :: rest) hp.1 hp.2
      have hshape : ('\n' :: ((joinSep "\n" ([((vid, c))].map fun p => renderVpcConfig p.1 p.2)).data ++
          ('\n' :: '\x7d' :: rest))) =
          ['\n', ' ', ' '] ++ ('"' :: (vid.data ++ ('"' ::
            ((" = \x7b\n    cidr_block           = \"" ++ c.cidr_block ++
              "\"\n    enable_dns_support   = " ++ pyBoolStr c.enable_dns_support ++
              "\n    enable_dns_hostnames = " ++ pyBoolStr c.enable_dns_hostnames ++
              "\n    tags = \x7b\n" ++ formatTags c.tags ++ "\n    \x7d\n  \x7d").data ++
              ('\n' :: '\x7d' :: rest))))) := by
        simp [joinSep, renderVpcConfig, str_data_append]
      rw [hshape, skipWs_append_ws _ _ (by decide), skipWs_cons_not _ _ (by decide)]
      simp only [he, if_neg (by decide : ¬ ('"' = '\x7d'))]
      obtain ⟨f2, rfl⟩ : ∃ f2, f' = f2 + 1 := ⟨f' - 1, by simp at hf; omega⟩
      have hshape2 : ('\n' :: '\x7d' :: rest) = ['\n'] ++ '\x7d' :: rest := rfl
      rw [hshape2, parseConfigEntriesF_ws_close f2 _ rest (by decide)]
    | cons q tl2 =>
      have he := parseConfigEntry_render vid c
        ('\n' :: ((joinSep "\n" ((q :: tl2).map fun p => renderVpcConfig p.1 p.2)).data ++
          ('\n' :: '\x7d' :: rest))) hp.1 hp.2
      have hshape : ('\n' :: ((joinSep "\n" (((vid, c) :: q :: tl2).map
            fun p => renderVpcConfig p.1 p.2)).data ++ ('\n' :: '\x7d' :: rest))) =
          ['\n', ' ', ' '] ++ ('"' :: (vid.data ++ ('"' ::
            ((" = \x7b\n    cidr_block           = \"" ++ c.cidr_block ++
              "\"\n    enable_dns_support   = " ++ pyBoolStr c.enable_dns_support ++
              "\n    enable_dns_hostnames = " ++ pyBoolStr c.enable_dns_hostnames ++
              "\n    tags = \x7b\n" ++ formatTags c.tags ++ "\n    \x7d\n  \x7d").data ++
              ('\n' :: ((joinSep "\n" ((q :: tl2).map fun p => renderVpcConfig p.1 p.2)).data ++
                ('\n' :: '\x7d' :: rest))))))) := by
        simp [joinSep, renderVpcConfig, str_data_append]
      rw [hshape, skipWs_append_ws _ _ (by decide), skipWs_cons_not _ _ (by decide)]
      simp only [he, if_neg (by decide : ¬ ('"' = '\x7d'))]
      rw [ih f' (by simp at hf ⊢; omega) (fun x hx => hwf x (List.mem_cons_of_mem _ hx))]

theorem skipWs_sp_json (y : String) (l : List Char) :
    skipWs (' ' :: ((jsonStr y).data ++ l)) = (jsonStr y).data ++ l := by
  simp [jsonStr, skipWs, isWsChar]

theorem parseStrListItemsF_render (x : String) (xs : List String) (f : Nat) (rest : List Char)
    (hf : (x :: xs).length ≤ f) (h : ∀ i ∈ x :: xs, NoQuote i) :
    parseStrListItemsF f
      ((joinSep ", " ((x :: xs).map jsonStr)).data ++ (']' :: rest)) =
      some ((x :: xs).map jsonEscaped, rest) := by
  induction xs generalizing x f with
  | nil =>
    obtain ⟨f', rfl⟩ : ∃ f', f = f' + 1 := ⟨f - 1, by simp at hf; omega⟩
    have hshape : ((joinSep ", " ([x].map jsonStr)).data ++ (']' :: rest)) =
        '"' :: (((x.data.map jsonEscChar).flatten) ++ '"' :: ']' :: rest) := by
      simp [joinSep, jsonStr]
    rw [parseStrListItemsF, hshape, parseStringLit, if_pos rfl,
      takeStrBody_append _ _ (jsonEsc_no_quote x (h x (by simp)))]
    simp [skipWs, isWsChar, jsonEscaped]
  | cons y ys ih =>
    obtain ⟨f', rfl⟩ : ∃ f', f = f' + 1 := ⟨f - 1, by simp at hf; omega⟩
    have hshape : ((joinSep ", " ((x :: y :: ys).map jsonStr)).data ++ (']' :: rest)) =
        '"' :: (((x.data.map jsonEscChar).flatten) ++ '"' :: ',' :: ' ' ::
          ((joinSep ", " ((y :: ys).map jsonStr)).data ++ (']' :: rest))) := by
      simp [joinSep, jsonStr, str_data_append]
    rw [parseStrListItemsF, hshape, parseStringLit, if_pos rfl,
      takeStrBody_append _ _ (jsonEsc_no_quote x (h x (by simp)))]
    have hsk : skipWs (',' :: ' ' ::
        ((joinSep ", " ((y :: ys).map jsonStr)).data ++ (']' :: rest))) =
        ',' :: ' ' :: ((joinSep ", " ((y :: ys).map jsonStr)).data ++ (']' :: rest)) := by
      simp [skipWs, isWsChar]
    have hsplit : ∃ l2, (joinSep ", " ((y :: ys).map jsonStr)).data ++ (']' :: rest) =
        (jsonStr y).data ++ l2 := by
      cases ys with
      | nil => exact ⟨']' :: rest, by simp [joinSep]⟩
      | cons z zs =>
        exact ⟨',' :: ' ' :: ((joinSep ", " ((z :: zs).map jsonStr)).data ++ (']' :: rest)),
          by simp [joinSep, str_data_append]⟩
    obtain ⟨l2, hl2⟩ := hsplit
    have hsk2 : skipWs (' ' :: ((joinSep ", " ((y :: ys).map jsonStr)).data ++ (']' :: rest))) =
        (joinSep ", " ((y :: ys).map jsonStr)).data ++ (']' :: rest) := by
      rw [hl2, skipWs_sp_json]
    have hih := ih y f' (by simp at hf ⊢; omega) (fun i hi => h i (List.mem_cons_of_mem _ hi))
    simp only [List.map_cons] at hsk hsk2 hih
    simp [hsk, hsk2, hih, jsonEscaped]

theorem skipWs_json (y : String) (l : List Char) :
    skipWs ((jsonStr y).data ++ l) = (jsonStr y).data ++ l := by
  simp [jsonStr, skipWs, isWsChar]

theorem ids_len_le (x : String) (xs : List String) :
    (x :: xs).length ≤ (joinSep ", " ((x :: xs).map jsonStr)).data.length := by
  induction xs generalizing x with
  | nil => simp [joinSep, jsonStr]
  | cons y ys ih =>
    have hshape : joinSep ", " ((x :: y :: ys).map jsonStr) =
        jsonStr x ++ ", " ++ joinSep ", " ((y :: ys).map jsonStr) := by
      simp [joinSep]
    have h1 : 1 ≤ (jsonStr x).data.length := by simp [jsonStr]
    have h2 := ih y
    rw [List.length_cons, hshape, str_data_append, str_data_append, List.length_append,
      List.length_append]
    have h3 : (", " : String).data.length = 2 := rfl
    simp only [List.length_cons] at h2 ⊢
    omega

theorem parseStrList_render (ids : List String) (rest : List Char)
    (hids : ∀ i ∈ ids, NoQuote i) :
    parseStrList ((jsonDumpsStrList ids).data ++ rest) = some (ids.map jsonEscaped, rest) := by
  cases ids with
  | nil =>
    have hshape : (jsonDumpsStrList []).data ++ rest = '[' :: ']' :: rest := by
      simp [jsonDumpsStrList, joinSep, str_data_append]
    rw [hshape, parseStrList]
    simp [skipWs, isWsChar]
  | cons x xs =>
    have hshape : (jsonDumpsStrList (x :: xs)).data ++ rest =
        '[' :: ((joinSep ", " ((x :: xs).map jsonStr)).data ++ (']' :: rest)) := by
      simp [jsonDumpsStrList, str_data_append]
    have hsplit : ∃ l2, (joinSep ", " ((x :: xs).map jsonStr)).data ++ (']' :: rest) =
        (jsonStr x).data ++ l2 := by
      cases xs with
      | nil => exact ⟨']' :: rest, by simp [joinSep]⟩
      | cons z zs =>
        exact ⟨',' :: ' ' :: ((joinSep ", " ((z :: zs).map jsonStr)).data ++ (']' :: rest)),
          by simp [joinSep, str_data_append]⟩
    obtain ⟨l2, hl2⟩ := hsplit
    have hcons : ∃ t, (joinSep ", " ((x :: xs).map jsonStr)).data ++ (']' :: rest) = '"' :: t := by
      refine ⟨((x.data.map jsonEscChar).flatten ++ ['"']) ++ l2, ?_⟩
      rw [hl2]
      simp [jsonStr]
    obtain ⟨t, ht⟩ := hcons
    rw [hshape, parseStrList]
    simp only [if_pos (rfl : ('[' : Char) = '[')]
    rw [ht, skipWs_cons_not _ _ (by decide)]
    have hne : ¬ ('"' = ']') := by decide
    simp only [hne, if_false, ite_false]
    rw [← ht]
    have hlen := ids_len_le x xs
    refine parseStrListItemsF_render x xs _ rest ?_ hids
    simp only [List.length_cons, List.length_append] at hlen ⊢
    omega

theorem configs_len_le (l : List (String × VpcRecord)) :
    l.length ≤ (joinSep "\n" (l.map fun p => renderVpcConfig p.1 p.2)).data.length := by
  induction l with
  | nil => simp
  | cons p tl ih =>
    cases tl with
    | nil => simp [joinSep, renderVpcConfig, str_data_append]
    | cons q tl2 =>
      have heq : joinSep "\n" ((p :: q :: tl2).map fun p => renderVpcConfig p.1 p.2) =
          (renderVpcConfig p.1 p.2 ++ "\n") ++
            joinSep "\n" ((q :: tl2).map fun p => renderVpcConfig p.1 p.2) := by
        simp [joinSep]
      rw [List.length_cons, heq, str_data_append, List.length_append]
      have h1 : 1 ≤ (renderVpcConfig p.1 p.2 ++ "\n").data.length := by
        simp [renderVpcConfig, str_data_append]
      simp only [List.length_cons] at ih ⊢
      omega

theorem parseTopAssign_region (doc : ParsedDoc) (region : String) (suffix : List Char)
    (hreg : NoQuote region) :
    parseTopAssign doc
      ('a' :: 'w' :: 's' :: '_' :: 'r' :: 'e' :: 'g' :: 'i' :: 'o' :: 'n' :: ' ' :: '=' :: ' ' :: '"' ::
        (region.data ++ '"' :: suffix)) =
      some ({ doc with aws_region := some region }, suffix) := by
  simp [parseTopAssign, takeIdent, isIdentChar, expectEq, skipWs, isWsChar, expectChar,
    parseStringLit_append region suffix hreg]

theorem parseTopAssign_ids (doc : ParsedDoc) (ids : List String) (suffix : List Char)
    (hids : ∀ i ∈ ids, NoQuote i) :
    parseTopAssign doc
      ('e' :: 'x' :: 'i' :: 's' :: 't' :: 'i' :: 'n' :: 'g' :: '_' :: 'v' :: 'p' :: 'c' :: '_' :: 'i' :: 'd' :: 's' ::
        ' ' :: '=' :: ' ' ::
        ((jsonDumpsStrList ids).data ++ suffix)) =
      some ({ doc with existing_vpc_ids := some (ids.map jsonEscaped) }, suffix) := by
  have hshape : (jsonDumpsStrList ids).data ++ suffix =
      '[' :: ((joinSep ", " (ids.map jsonStr)).data ++ (']' :: suffix)) := by
    simp [jsonDumpsStrList, str_data_append]
  have hp := parseStrList_render ids suffix hids
  rw [hshape] at hp
  simp [parseTopAssign, takeIdent, isIdentChar, expectEq, skipWs, isWsChar, expectChar,
    hshape, hp]

theorem parseTopAssign_configs (doc : ParsedDoc) (l : List (String × VpcRecord))
    (suffix : List Char) (hwf : ∀ p ∈ l, NoQuote p.1 ∧ WfRecord p.2) :
    parseTopAssign doc
      ('i' :: 'm' :: 'p' :: 'o' :: 'r' :: 't' :: 'e' :: 'd' :: '_' :: 'v' :: 'p' :: 'c' :: '_' :: 'c' :: 'o' :: 'n' :: 'f' :: 'i' :: 'g' :: 's' ::
        ' ' :: '=' :: ' ' :: '\x7b' :: '\n' ::
        ((joinSep "\n" (l.map fun p => renderVpcConfig p.1 p.2)).data ++
          ('\n' :: '\x7d' :: suffix))) =
      some ({ doc with imported_vpc_configs := some (dictOfEntries l) }, suffix) := by
  simp only [parseTopAssign, takeIdent, isIdentChar, expectEq, skipWs, isWsChar, expectChar,
    parseConfigEntries]
  simp [takeIdent, isIdentChar, expectEq, skipWs, isWsChar, expectChar]
  refine ⟨l, parseConfigEntriesF_render l _ suffix ?_ hwf, rfl⟩
  have hc := configs_len_le l
  have hsl : (joinSep "\n" (l.map fun p => renderVpcConfig p.1 p.2)).length =
      (joinSep "\n" (l.map fun p => renderVpcConfig p.1 p.2)).data.length := rfl
  omega

theorem skipWs_nn (l : List Char) : skipWs ('\n' :: '\n' :: l) = skipWs l := by
  simp [skipWs, isWsChar]

theorem parseTfvarsAuxF_step (f : Nat) (doc doc2 : ParsedDoc) (cs r rest : List Char)
    (c : Char) (hskip : skipWs cs = c :: r)
    (hassign : parseTopAssign doc (c :: r) = some (doc2, rest)) :
    parseTfvarsAuxF (f + 1) doc cs = parseTfvarsAuxF f doc2 rest := by
  simp only [parseTfvarsAuxF, hskip, hassign]

theorem parseTfvarsAuxF_done (f : Nat) (doc : ParsedDoc) :
    parseTfvarsAuxF (f + 1) doc [] = some doc := by
  simp [parseTfvarsAuxF, skipWs]

theorem hcl2_loads_render (region : String) (configs : List (String × VpcRecord))
    (ids : List String) (hreg : NoQuote region) (hids : ∀ i ∈ ids, NoQuote i)
    (hwf : ∀ p ∈ configs, NoQuote p.1 ∧ WfRecord p.2) :
    hcl2_loads (renderTfvars region configs ids) =
      some ⟨some region, some (ids.map jsonEscaped), some (dictOfEntries configs)⟩ := by
  have hshape : (renderTfvars region configs ids).data =
      'a' :: 'w' :: 's' :: '_' :: 'r' :: 'e' :: 'g' :: 'i' :: 'o' :: 'n' :: ' ' :: '=' :: ' ' :: '"' ::
        (region.data ++ '"' :: '\n' :: '\n' ::
          'e' :: 'x' :: 'i' :: 's' :: 't' :: 'i' :: 'n' :: 'g' :: '_' :: 'v' :: 'p' :: 'c' :: '_' :: 'i' :: 'd' :: 's' :: ' ' :: '=' :: ' ' ::
            ((jsonDumpsStrList ids).data ++ '\n' :: '\n' ::
              'i' :: 'm' :: 'p' :: 'o' :: 'r' :: 't' :: 'e' :: 'd' :: '_' :: 'v' :: 'p' :: 'c' :: '_' :: 'c' :: 'o' :: 'n' :: 'f' :: 'i' :: 'g' :: 's' :: ' ' :: '=' :: ' ' :: '\x7b' :: '\n' ::
                ((joinSep "\n" (configs.map fun p => renderVpcConfig p.1 p.2)).data ++
                  '\n' :: '\x7d' :: []))) := by
    simp [renderTfvars, str_data_append]
  have hlen3 : 3 ≤ (renderTfvars region configs ids).data.length := by
    rw [hshape]
    simp
  have hex : ∃ n, (renderTfvars region configs ids).data.length + 1 = n + 4 :=
    ⟨(renderTfvars region configs ids).data.length - 3, by omega⟩
  obtain ⟨n, hn⟩ := hex
  rw [hcl2_loads, hn, hshape]
  rw [show n + 4 = (n + 3) + 1 from rfl,
    parseTfvarsAuxF_step (n + 3) _ _ _ _ _ _
      (skipWs_cons_not _ _ (by decide))
      (parseTopAssign_region ⟨none, none, none⟩ region _ hreg)]
  rw [show n + 3 = (n + 2) + 1 from rfl,
    parseTfvarsAuxF_step (n + 2) _ _ _ _ _ _
      ((skipWs_nn _).trans (skipWs_cons_not _ _ (by decide)))
      (parseTopAssign_ids _ ids _ hids)]
  rw [show n + 2 = (n + 1) + 1 from rfl,
    parseTfvarsAuxF_step (n + 1) _ _ _ _ _ _
      ((skipWs_nn _).trans (skipWs_cons_not _ _ (by decide)))
      (parseTopAssign_configs _ configs [] hwf)]
  rw [show n + 1 = n + 1 from rfl, parseTfvarsAuxF_done n _]


theorem takeStrBody_no_quote (cs s r : List Char) (h : takeStrBody cs = some (s, r)) :
    ∀ c ∈ s, c ≠ '"' := by
  induction cs generalizing s r with
  | nil => simp [takeStrBody] at h
  | cons c0 tl ih =>
    rw [takeStrBody] at h
    by_cases hc : c0 = '"'
    · rw [if_pos hc] at h
      cases h
      simp
    · rw [if_neg hc] at h
      cases htl : takeStrBody tl with
      | none => rw [htl] at h; cases h
      | some p =>
        obtain ⟨s', rest⟩ := p
        rw [htl] at h
        simp only [Option.some.injEq, Prod.mk.injEq] at h
        obtain ⟨h1, h2⟩ := h
        subst h1
        intro c hc2
        rcases List.mem_cons.1 hc2 with rfl | hmem
        · exact hc
        · exact ih s' rest htl c hmem

theorem parseStringLit_no_quote (cs : List Char) (str : String) (r : List Char)
    (h : parseStringLit cs = some (str, r)) : NoQuote str := by
  cases cs with
  | nil => simp [parseStringLit] at h
  | cons c r0 =>
    rw [parseStringLit] at h
    by_cases hc : c = '"'
    · rw [if_pos hc] at h
      cases hb : takeStrBody r0 with
      | none => rw [hb] at h; cases h
      | some p =>
        obtain ⟨s', rest⟩ := p
        rw [hb] at h
        simp only [Option.map_some', Option.some.injEq, Prod.mk.injEq] at h
        obtain ⟨h1, h2⟩ := h
        subst h1
        intro c hc2
        exact takeStrBody_no_quote r0 s' rest hb c hc2
    · rw [if_neg hc] at h
      cases h

theorem takeIdent_ident (cs : List Char) : ∀ x ∈ (takeIdent cs).1, isIdentChar x = true := by
  induction cs with
  | nil => simp [takeIdent]
  | cons c tl ih =>
    rw [takeIdent]
    by_cases hc : isIdentChar c = true
    · rw [if_pos hc]
      intro x hx
      rcases List.mem_cons.1 hx with rfl | hmem
      · exact hc
      · exact ih x hmem
    · rw [if_neg hc]
      simp

theorem parseStrListItemsF_no_quote (f : Nat) (cs : List Char) (ss : List String)
    (r : List Char) (h : parseStrListItemsF f cs = some (ss, r)) : ∀ s ∈ ss, NoQuote s := by
  induction f generalizing cs ss r with
  | zero => simp [parseStrListItemsF] at h
  | succ f ih =>
    rw [parseStrListItemsF] at h
    cases hs : parseStringLit cs with
    | none => simp only [hs] at h; cases h
    | some p =>
      obtain ⟨s0, r1⟩ := p
      simp only [hs] at h
      cases hw : skipWs r1 with
      | nil => simp only [hw] at h; cases h
      | cons c r2 =>
        simp only [hw] at h
        by_cases hc : c = ','
        · rw [if_pos hc] at h
          cases hrec : parseStrListItemsF f (skipWs r2) with
          | none => simp only [hrec] at h; cases h
          | some q =>
            obtain ⟨ss', r4⟩ := q
            simp only [hrec, Option.some.injEq, Prod.mk.injEq] at h
            obtain ⟨h1, h2⟩ := h
            subst h1
            intro s hmem
            rcases List.mem_cons.1 hmem with rfl | hmem2
            · exact parseStringLit_no_quote cs s r1 hs
            · exact ih _ _ _ hrec s hmem2
        · rw [if_neg hc] at h
          by_cases hc2 : c = ']'
          · rw [if_pos hc2] at h
            simp only [Option.some.injEq, Prod.mk.injEq] at h
            obtain ⟨h1, h2⟩ := h
            subst h1
            intro s hmem
            rcases List.mem_cons.1 hmem with rfl | hmem2
            · exact parseStringLit_no_quote cs s r1 hs
            · cases hmem2
          · rw [if_neg hc2] at h
            cases h

theorem parseStrList_no_quote (cs : List Char) (ss : List String) (r : List Char)
    (h : parseStrList cs = some (ss, r)) : ∀ s ∈ ss, NoQuote s := by
  cases cs with
  | nil => simp [parseStrList] at h
  | cons c0 r0 =>
    rw [parseStrList] at h
    by_cases hb : c0 = '['
    · rw [if_pos hb] at h
      cases hw : skipWs r0 with
      | nil => simp only [hw] at h; cases h
      | cons c r2 =>
        simp only [hw] at h
        by_cases hc : c = ']'
        · rw [if_pos hc] at h
          simp only [Option.some.injEq, Prod.mk.injEq] at h
          obtain ⟨h1, h2⟩ := h
          subst h1
          simp
        · rw [if_neg hc] at h
          exact parseStrListItemsF_no_quote _ _ _ _ h
    · rw [if_neg hb] at h
      cases h

theorem parseTagEntriesF_wf (f : Nat) (cs : List Char) (tags : List (String × String))
    (r : List Char) (h : parseTagEntriesF f cs = some (tags, r)) :
    ∀ kv ∈ tags, IsIdentName kv.1 ∧ NoQuote kv.2 := by
  induction f generalizing cs tags r with
  | zero => simp [parseTagEntriesF] at h
  | succ f ih =>
    rw [parseTagEntriesF] at h
    cases hw : skipWs cs with
    | nil => simp only [hw] at h; cases h
    | cons c r0 =>
      simp only [hw] at h
      by_cases hc : c = '\x7d'
      · rw [if_pos hc] at h
        simp only [Option.some.injEq, Prod.mk.injEq] at h
        obtain ⟨h1, h2⟩ := h
        subst h1
        simp
      · rw [if_neg hc] at h
        by_cases hi : (takeIdent (c :: r0)).1 = []
        · rw [if_pos hi] at h; cases h
        · rw [if_neg hi] at h
          cases he : expectEq (takeIdent (c :: r0)).2 with
          | none => simp only [he] at h; cases h
          | some r2 =>
            simp only [he] at h
            cases hv : parseStringLit (skipWs r2) with
            | none => simp only [hv] at h; cases h
            | some q =>
              obtain ⟨v, r3⟩ := q
              simp only [hv] at h
              cases hrec : parseTagEntriesF f r3 with
              | none => simp only [hrec] at h; cases h
              | some q2 =>
                obtain ⟨tags', r4⟩ := q2
                simp only [hrec, Option.some.injEq, Prod.mk.injEq] at h
                obtain ⟨h1, h2⟩ := h
                subst h1
                intro kv hmem
                rcases List.mem_cons.1 hmem with rfl | hmem2
                · refine ⟨⟨hi, ?_⟩, parseStringLit_no_quote _ _ _ hv⟩
                  exact fun x hx => takeIdent_ident (c :: r0) x hx
                · exact ih _ _ _ hrec kv hmem2

theorem dictOfEntries_keys_nodup {α : Type} (l : List (String × α)) :
    ((dictOfEntries l).map Prod.fst).Nodup := by
  have hgen : ∀ (l acc : List (String × α)), (acc.map Prod.fst).Nodup →
      (((l.foldl (fun m p => dictSet m p.1 p.2) acc)).map Prod.fst).Nodup := by
    intro l
    induction l with
    | nil => intro acc h; exact h
    | cons p tl ih =>
      intro acc h
      rw [List.foldl_cons]
      exact ih _ (dictSet_keys_nodup acc p.1 p.2 h)
  exact hgen l [] (by simp)

theorem dictOfEntries_mem {α : Type} (l : List (String × α)) (p : String × α)
    (hp : p ∈ dictOfEntries l) : p ∈ l := by
  have hgen : ∀ (l acc : List (String × α)) (p : String × α),
      p ∈ l.foldl (fun m q => dictSet m q.1 q.2) acc → p ∈ acc ∨ p ∈ l := by
    intro l
    induction l with
    | nil => intro acc p h; exact Or.inl h
    | cons q tl ih =>
      intro acc p h
      rw [List.foldl_cons] at h
      rcases ih _ p h with h1 | h1
      · rcases dictSet_mem acc q.1 q.2 p h1 with h2 | h2
        · exact Or.inr (h2 ▸ List.mem_cons_self _ _)
        · exact Or.inl h2
      · exact Or.inr (List.mem_cons_of_mem _ h1)
  rcases hgen l [] p hp with h1 | h1
  · cases h1
  · exact h1

theorem parseVpcRecord_wf (cs : List Char) (rec : VpcRecord) (r : List Char)
    (h : parseVpcRecord cs = some (rec, r)) : WfRecord rec := by
  rw [parseVpcRecord] at h
  simp only [Option.bind_eq_some, Option.map_eq_some'] at h
  obtain ⟨r0, h0, r1, h1, ⟨cidr, r2⟩, h2, r3, h3, ⟨b1, r4⟩, h4, r5, h5, ⟨b2, r6⟩, h6,
    r7, h7, r8, h8, ⟨tags, r9⟩, h9, r10, h10, hrec⟩ := h
  simp only [Prod.mk.injEq] at hrec
  obtain ⟨hrec1, hrec2⟩ := hrec
  subst hrec1
  refine ⟨parseStringLit_no_quote _ _ _ h2, dictOfEntries_keys_nodup tags, ?_⟩
  intro kv hkv
  exact parseTagEntriesF_wf _ _ _ _ h9 kv (dictOfEntries_mem tags kv hkv)

theorem parseConfigEntry_wf (cs : List Char) (e : String × VpcRecord) (r : List Char)
    (h : parseConfigEntry cs = some (e, r)) : NoQuote e.1 ∧ WfRecord e.2 := by
  rw [parseConfigEntry] at h
  simp only [Option.bind_eq_some, Option.map_eq_some'] at h
  obtain ⟨⟨vid, r1⟩, h1, r2, h2, ⟨rec, r3⟩, h3, hres⟩ := h
  simp only [Prod.mk.injEq] at hres
  obtain ⟨hres1, hres2⟩ := hres
  subst hres1
  exact ⟨parseStringLit_no_quote _ _ _ h1, parseVpcRecord_wf _ _ _ h3⟩

theorem parseConfigEntriesF_wf (f : Nat) (cs : List Char)
    (es : List (String × VpcRecord)) (r : List Char)
    (h : parseConfigEntriesF f cs = some (es, r)) :
    ∀ p ∈ es, NoQuote p.1 ∧ WfRecord p.2 := by
  induction f generalizing cs es r with
  | zero => simp [parseConfigEntriesF] at h
  | succ f ih =>
    rw [parseConfigEntriesF] at h
    cases hw : skipWs cs with
    | nil => simp only [hw] at h; cases h
    | cons c r0 =>
      simp only [hw] at h
      by_cases hc : c = '\x7d'
      · rw [if_pos hc] at h
        simp only [Option.some.injEq, Prod.mk.injEq] at h
        obtain ⟨h1, h2⟩ := h
        subst h1
        simp
      · rw [if_neg hc] at h
        cases he : parseConfigEntry (c :: r0) with
        | none => simp only [he] at h; cases h
        | some q =>
          obtain ⟨e, r3⟩ := q
          simp only [he] at h
          cases hrec : parseConfigEntriesF f r3 with
          | none => simp only [hrec] at h; cases h
          | some q2 =>
            obtain ⟨es', r4⟩ := q2
            simp only [hrec, Option.some.injEq, Prod.mk.injEq] at h
            obtain ⟨h1, h2⟩ := h
            subst h1
            intro p hmem
            rcases List.mem_cons.1 hmem with rfl | hmem2
            · exact parseConfigEntry_wf _ _ _ he
            · exact ih _ _ _ hrec p hmem2

theorem parseConfigEntries_wf (cs : List Char) (es : List (String × VpcRecord))
    (r : List Char) (h : parseConfigEntries cs = some (es, r)) :
    ∀ p ∈ es, NoQuote p.1 ∧ WfRecord p.2 :=
  parseConfigEntriesF_wf _ _ _ _ h

theorem parseTopAssign_wf (doc doc2 : ParsedDoc) (cs rest : List Char)
    (hdoc : WfDoc doc) (h : parseTopAssign doc cs = some (doc2, rest)) : WfDoc doc2 := by
  rw [parseTopAssign] at h
  by_cases hi : (takeIdent cs).1 = []
  · rw [if_pos hi] at h; cases h
  · rw [if_neg hi] at h
    simp only [Option.bind_eq_some] at h
    obtain ⟨r2, h2, h3⟩ := h
    by_cases hk1 : (takeIdent cs).1 = ("aws_region" : String).data
    · rw [if_pos hk1] at h3
      simp only [Option.map_eq_some'] at h3
      obtain ⟨⟨reg, r3⟩, hq, hres⟩ := h3
      simp only [Prod.mk.injEq] at hres
      obtain ⟨hres1, hres2⟩ := hres
      subst hres1
      exact ⟨fun l hl => hdoc.1 l hl, fun l hl => hdoc.2 l hl⟩
    · rw [if_neg hk1] at h3
      by_cases hk2 : (takeIdent cs).1 = ("existing_vpc_ids" : String).data
      · rw [if_pos hk2] at h3
        simp only [Option.map_eq_some'] at h3
        obtain ⟨⟨l0, r3⟩, hq, hres⟩ := h3
        simp only [Prod.mk.injEq] at hres
        obtain ⟨hres1, hres2⟩ := hres
        subst hres1
        refine ⟨fun l hl => ?_, fun l hl => hdoc.2 l hl⟩
        simp only [Option.some.injEq] at hl
        subst hl
        exact parseStrList_no_quote _ _ _ hq
      · rw [if_neg hk2] at h3
        by_cases hk3 : (takeIdent cs).1 = ("imported_vpc_configs" : String).data
        · rw [if_pos hk3] at h3
          simp only [Option.bind_eq_some, Option.map_eq_some'] at h3
          obtain ⟨r4, h4, ⟨l0, r5⟩, hq, hres⟩ := h3
          simp only [Prod.mk.injEq] at hres
          obtain ⟨hres1, hres2⟩ := hres
          subst hres1
          refine ⟨fun l hl => hdoc.1 l hl, fun l hl => ?_⟩
          simp only [Option.some.injEq] at hl
          subst hl
          refine ⟨dictOfEntries_keys_nodup l0, fun p hp => ?_⟩
          exact parseConfigEntries_wf _ _ _ hq p (dictOfEntries_mem l0 p hp)
        · rw [if_neg hk3] at h3
          cases h3

theorem parseTfvarsAuxF_wf (f : Nat) (doc doc' : ParsedDoc) (cs : List Char)
    (hdoc : WfDoc doc) (h : parseTfvarsAuxF f doc cs = some doc') : WfDoc doc' := by
  induction f generalizing doc cs with
  | zero => simp [parseTfvarsAuxF] at h
  | succ f ih =>
    rw [parseTfvarsAuxF] at h
    cases hw : skipWs cs with
    | nil =>
      simp only [hw, Option.some.injEq] at h
      subst h
      exact hdoc
    | cons c r =>
      simp only [hw] at h
      cases ha : parseTopAssign doc (c :: r) with
      | none => simp only [ha] at h; cases h
      | some q =>
        obtain ⟨doc2, rest⟩ := q
        simp only [ha] at h
        exact ih doc2 rest (parseTopAssign_wf doc doc2 (c :: r) rest hdoc ha) h

theorem read_existing_tfvars_wf (file : Option String) :
    WfDetails (read_existing_tfvars file).1.1 ∧
      ∀ i ∈ (read_existing_tfvars file).1.2, NoQuote i := by
  cases file with
  | none => refine ⟨⟨?_, ?_⟩, ?_⟩ <;> simp [read_existing_tfvars]
  | some content =>
    rw [read_existing_tfvars]
    cases hl : hcl2_loads content with
    | none => refine ⟨⟨?_, ?_⟩, ?_⟩ <;> simp
    | some doc =>
      have hwf : WfDoc doc := by
        refine parseTfvarsAuxF_wf _ ⟨none, none, none⟩ doc content.data ?_ hl
        unfold WfDoc
        refine ⟨fun l hl2 => ?_, fun l hl2 => ?_⟩ <;> exact nomatch hl2
      refine ⟨?_, ?_⟩
      · cases hc : doc.imported_vpc_configs with
        | none => refine ⟨?_, ?_⟩ <;> simp [hc]
        | some l => simpa [hc] using hwf.2 l hc
      · cases hi : doc.existing_vpc_ids with
        | none => simp [hi]
        | some l => simpa [hi] using hwf.1 l hi

theorem mergeVpcDetails_wf (c : List (String × VpcRecord)) (i : List String)
    (R : List (String × VpcRecord)) (hc : WfDetails c) (hi : ∀ x ∈ i, NoQuote x)
    (hR : ∀ p ∈ R, NoQuote p.1 ∧ WfRecord p.2) :
    WfDetails (mergeVpcDetails c i R).1 ∧
      ∀ x ∈ (mergeVpcDetails c i R).2, NoQuote x := by
  induction R generalizing c i with
  | nil => exact ⟨hc, hi⟩
  | cons p tl ih =>
    rw [mergeVpcDetails_cons]
    refine ih _ _ ⟨dictSet_keys_nodup c p.1 p.2 hc.1, fun q hq => ?_⟩
      (fun x hx => ?_) (fun q hq => hR q (List.mem_cons_of_mem _ hq))
    · rcases dictSet_mem c p.1 p.2 q hq with h1 | h1
      · subst h1
        exact hR p (List.mem_cons_self _ _)
      · exact hc.2 q h1
    · by_cases hp : p.1 ∈ i
      · rw [if_pos hp] at hx
        exact hi x hx
      · rw [if_neg hp] at hx
        rcases List.mem_append.1 hx with h1 | h1
        · exact hi x h1
        · rw [List.mem_singleton.1 h1]
          exact (hR p (List.mem_cons_self _ _)).1

/-- Claim C1: for any prior file content `p`, re-loading the file written by
`create_or_update_tfvars` reproduces exactly the merged mapping: the loaded
mapping equals the merge of the loaded prior store with the discovery result
`R`, every id in `R` maps to its new record (R wins on collision), and ids
absent from `R` keep their prior record. -/
theorem tfvars_roundtrip (p : Option String) (R : List (String × VpcRecord)) (region : String)
    (hR : WfDetails R) (hreg : NoQuote region) :
    (read_existing_tfvars (some (create_or_update_tfvars p R region))).1.1 =
      (mergeVpcDetails (read_existing_tfvars p).1.1 (read_existing_tfvars p).1.2 R).1
  ∧ (∀ id rec, (id, rec) ∈ R →
      dictGet (mergeVpcDetails (read_existing_tfvars p).1.1 (read_existing_tfvars p).1.2 R).1 id =
        some rec)
  ∧ (∀ id, id ∉ R.map Prod.fst →
      dictGet (mergeVpcDetails (read_existing_tfvars p).1.1 (read_existing_tfvars p).1.2 R).1 id =
        dictGet (read_existing_tfvars p).1.1 id) := by
  have hload := read_existing_tfvars_wf p
  have hmerge := mergeVpcDetails_wf (read_existing_tfvars p).1.1 (read_existing_tfvars p).1.2 R
    hload.1 hload.2 hR.2
  refine ⟨?_, fun id rec hmem => merge_dictGet_of_mem _ _ R id rec hR.1 hmem,
    fun id hid => mergeVpcDetails_configs_not_mem _ _ R id hid⟩
  have hsome : ∀ content : String, read_existing_tfvars (some content) =
      (match hcl2_loads content with
       | some parsed =>
         ((parsed.imported_vpc_configs.getD [], parsed.existing_vpc_ids.getD []), false)
       | none => (([], []), true)) := fun _ => rfl
  simp only [create_or_update_tfvars]
  rw [hsome, hcl2_loads_render region _ _ hreg hmerge.2 hmerge.1.2]
  simp [dictOfEntries_nodup_id _ hmerge.1.1]

/-- Claim C10: the file written by `create_or_update_tfvars` always parses,
and its `aws_region` declaration carries the region of the current run,
regardless of any region recorded in the prior file. -/
theorem region_always_current (p : Option String) (R : List (String × VpcRecord))
    (region : String) (hR : WfDetails R) (hreg : NoQuote region) :
    ∃ doc, hcl2_loads (create_or_update_tfvars p R region) = some doc ∧
      doc.aws_region = some region := by
  have hload := read_existing_tfvars_wf p
  have hmerge := mergeVpcDetails_wf (read_existing_tfvars p).1.1 (read_existing_tfvars p).1.2 R
    hload.1 hload.2 hR.2
  have hout : hcl2_loads (create_or_update_tfvars p R region) = some ⟨some region,
      some ((mergeVpcDetails (read_existing_tfvars p).1.1
        (read_existing_tfvars p).1.2 R).2.map jsonEscaped),
      some (dictOfEntries (mergeVpcDetails (read_existing_tfvars p).1.1
        (read_existing_tfvars p).1.2 R).1)⟩ := by
    simp only [create_or_update_tfvars]
    exact hcl2_loads_render region _ _ hreg hmerge.2 hmerge.1.2
  exact ⟨_, hout, rfl⟩

/-- Witness for C1 at a concrete run: an empty prior file merged with the
two-record discovery result round-trips through the rendered file. -/
theorem tfvars_roundtrip_witness :
    (WfDetails wResp ∧ NoQuote "us-east-1") ∧
    ((read_existing_tfvars (some (create_or_update_tfvars none wResp "us-east-1"))).1.1 =
      (mergeVpcDetails (read_existing_tfvars none).1.1
        (read_existing_tfvars none).1.2 wResp).1
    ∧ (∀ id rec, (id, rec) ∈ wResp →
        dictGet (mergeVpcDetails (read_existing_tfvars none).1.1
          (read_existing_tfvars none).1.2 wResp).1 id = some rec)
    ∧ (∀ id, id ∉ wResp.map Prod.fst →
        dictGet (mergeVpcDetails (read_existing_tfvars none).1.1
          (read_existing_tfvars none).1.2 wResp).1 id =
          dictGet (read_existing_tfvars none).1.1 id)) :=
  ⟨⟨by unfold WfDetails WfRecord NoQuote IsIdentName; decide,
    by unfold NoQuote; decide⟩,
    tfvars_roundtrip none wResp "us-east-1"
      (by unfold WfDetails WfRecord NoQuote IsIdentName; decide)
      (by unfold NoQuote; decide)⟩

/-- Witness for C10 at a concrete run: the rendered file parses and its
`aws_region` is the run's region. -/
theorem region_always_current_witness :
    (WfDetails wResp ∧ NoQuote "us-east-1") ∧
    (∃ doc, hcl2_loads (create_or_update_tfvars none wResp "us-east-1") = some doc ∧
      doc.aws_region = some "us-east-1") :=
  ⟨⟨by unfold WfDetails WfRecord NoQuote IsIdentName; decide,
    by unfold NoQuote; decide⟩,
    region_always_current none wResp "us-east-1"
      (by unfold WfDetails WfRecord NoQuote IsIdentName; decide)
      (by unfold NoQuote; decide)⟩
